import Mathlib

/-!
Verification of the Remote Session Execution Engine of `nexus_cli.py`.

The Python source is shallowly embedded: each relevant Python function is
translated into an executable Lean definition over `String` (viewed as its
list of characters), and the claims of the specification are settled as
theorems about those definitions.  String primitives (`lower`, `strip`,
`startswith`, the `in` substring test, `split`, `replace`, slicing) are
implemented here as structurally recursive functions on `List Char` so that
every definition evaluates inside the kernel; they mirror the Python
semantics for the ASCII command text the tool manipulates.
-/

namespace NexusCLI

/-- Boolean test that `p` is a prefix of `l` (Python `str.startswith` on
character lists). -/
def listPre : List Char → List Char → Bool
  | [], _ => true
  | _ :: _, [] => false
  | a :: as, b :: bs => a == b && listPre as bs

/-- Boolean substring test (Python `p in l`); the empty pattern matches
everywhere, as in Python. -/
def listSub (p : List Char) : List Char → Bool
  | [] => listPre p []
  | c :: rest => listPre p (c :: rest) || listSub p rest

/-- Python `pre in s` for strings. -/
def pyContains (s pat : String) : Bool := listSub pat.data s.data

/-- Python `s.startswith(p)`. -/
def pyStartsWith (s p : String) : Bool := listPre p.data s.data

/-- Python `s.endswith(p)`. -/
def pyEndsWith (s p : String) : Bool := listPre p.data.reverse s.data.reverse

/-- Python `s.lower()` (ASCII case folding, which is all the tool needs). -/
def pyLower (s : String) : String := ⟨s.data.map Char.toLower⟩

/-- Characters stripped by Python `str.strip()` (whitespace). -/
def stripL (l : List Char) : List Char :=
  ((l.dropWhile Char.isWhitespace).reverse.dropWhile Char.isWhitespace).reverse

/-- Python `s.strip()`. -/
def pyStrip (s : String) : String := ⟨stripL s.data⟩

/-- The idiom `command.lower().strip()` used throughout the source. -/
def lowerStrip (s : String) : String := pyStrip (pyLower s)

/-- Whitespace split helper: accumulates the current token (reversed) and
emits tokens between whitespace runs. -/
def splitWsAux : List Char → List Char → List (List Char)
  | acc, [] => if acc == [] then [] else [acc.reverse]
  | acc, c :: rest =>
    if c.isWhitespace then
      (if acc == [] then splitWsAux [] rest else acc.reverse :: splitWsAux [] rest)
    else splitWsAux (c :: acc) rest

/-- Python `s.split()`: split on whitespace runs, discarding empty tokens. -/
def pyTokens (s : String) : List String := (splitWsAux [] s.data).map (fun l => ⟨l⟩)

/-- Python `s[:n]`: the first `n` characters. -/
def pyTake (s : String) (n : Nat) : String := ⟨s.data.take n⟩

/-- Python `s.replace(pat, rep)` with fuel-bounded recursion (structural, so
the kernel can evaluate it); `hay.length` fuel suffices because each step
consumes at least one character.  The correction tables never contain an
empty pattern, and an empty pattern leaves the string unchanged here. -/
def replFuel (p r : List Char) : Nat → List Char → List Char
  | 0, hay => hay
  | _ + 1, [] => []
  | fuel + 1, c :: rest =>
    if p ≠ [] ∧ listPre p (c :: rest) then
      r ++ replFuel p r fuel ((c :: rest).drop p.length)
    else c :: replFuel p r fuel rest

/-- Python `s.replace(pat, rep)` on strings. -/
def pyReplace (s pat rep : String) : String :=
  ⟨replFuel pat.data rep.data s.data.length s.data⟩

/-! ### The Command Grouper (`group_interface_commands`, source lines 820-873) -/

/-- The read-only verb test `command_lower.startswith('show ') or
command_lower.startswith('display ')`. -/
def isShowCmd (cl : String) : Bool := pyStartsWith cl "show " || pyStartsWith cl "display "

/-- The interface-scope test `command_lower.startswith('interface ')`. -/
def isIfaceCmd (cl : String) : Bool := pyStartsWith cl "interface "

/-- The interface sub-command keyword list of lines 846-847. -/
def ifaceSubKeywords : List String :=
  ["description", "switchport", "no shutdown", "shutdown",
   "ip address", "spanning-tree", "mtu", "speed", "duplex"]

/-- `any(keyword in command_lower for keyword in [...])` of line 845. -/
def hasIfaceKeyword (cl : String) : Bool :=
  ifaceSubKeywords.any (fun k => pyContains cl k)

/-- `command.split()[1] if len(command.split()) > 1 else "unknown"` (line 842). -/
def tokenOf (c : String) : String :=
  match pyTokens c with
  | _ :: t :: _ => t
  | _ => "unknown"

/-- Python `dict` assignment `m[k] = v` on an insertion-ordered association
list: an existing key keeps its position and gets the new value, a new key is
appended at the end. -/
def dictInsert {α : Type} : List (String × α) → String → α → List (String × α)
  | [], k, v => [(k, v)]
  | (k', v') :: rest, k, v =>
    if k' = k then (k', v) :: rest else (k', v') :: dictInsert rest k v

/-- Truthiness of the Python variable `current_interface` (a non-`None`,
non-empty string). -/
def optTruthy : Option String → Bool
  | none => false
  | some t => t ≠ ""

/-- The loop state of `group_interface_commands`. -/
structure GState where
  blocks : List (String × List String)
  cur : Option String
  curBlock : List String
  indiv : List String
  deriving Repr, DecidableEq

/-- One iteration of the `for command in commands` loop of
`group_interface_commands` (lines 827-863). -/
def groupStep (st : GState) (command : String) : GState :=
  let cl := lowerStrip command
  if isShowCmd cl then
    { st with indiv := st.indiv ++ [command] }
  else if isIfaceCmd cl then
    let blocks :=
      match st.cur with
      | some t => if t ≠ "" ∧ st.curBlock ≠ [] then dictInsert st.blocks t st.curBlock else st.blocks
      | none => st.blocks
    { blocks := blocks, cur := some (tokenOf command),
      curBlock := ["configure terminal", command], indiv := st.indiv }
  else if optTruthy st.cur && hasIfaceKeyword cl then
    { st with curBlock := st.curBlock ++ [command] }
  else if cl = "configure terminal" then
    st
  else
    match st.cur with
    | some t =>
      if t ≠ "" ∧ st.curBlock ≠ [] then
        { blocks := dictInsert st.blocks t st.curBlock, cur := none, curBlock := [],
          indiv := st.indiv ++ [command] }
      else { st with indiv := st.indiv ++ [command] }
    | none => { st with indiv := st.indiv ++ [command] }

/-- The trailing `if current_interface and current_block` save of lines 866-867. -/
def commitFinal (st : GState) : List (String × List String) :=
  match st.cur with
  | some t => if t ≠ "" ∧ st.curBlock ≠ [] then dictInsert st.blocks t st.curBlock else st.blocks
  | none => st.blocks

/-- The `for i, cmd in enumerate(individual_commands)` loop of lines 870-871,
with the running index made explicit. -/
def addIndividuals (m : List (String × List String)) (i : Nat) :
    List String → List (String × List String)
  | [] => m
  | c :: rest => addIndividuals (dictInsert m ("individual_" ++ Nat.repr i) [c]) (i + 1) rest

/-- `group_interface_commands(commands)` (lines 820-873): the returned
insertion-ordered mapping from block name to command block. -/
def group_interface_commands (commands : List String) : List (String × List String) :=
  let st := commands.foldl groupStep ⟨[], none, [], []⟩
  addIndividuals (commitFinal st) 0 st.indiv

/-- Concatenation of the block command lists in emission order. -/
def concatBlocks (m : List (String × List String)) : List String :=
  (m.map Prod.snd).flatten

/-- Removal of the synthetic configuration-entry markers. -/
def withoutMarkers (l : List String) : List String :=
  l.filter (fun c => c ≠ "configure terminal")

/-! ### The Syntax Normalizer (`validate_nexus_commands`, source lines 525-573) -/

/-- The `ios_to_nexus` general-correction table (lines 530-539), in insertion
order. -/
def ios_to_nexus : List (String × String) :=
  [("show bgp summary", "show bgp l2vpn evpn summary"),
   ("show bgp neighbors", "show bgp l2vpn evpn neighbors"),
   ("show ip bgp summary", "show bgp ipv4 unicast summary"),
   ("show ip bgp neighbors", "show bgp ipv4 unicast neighbors"),
   ("show processes cpu", "show system resources"),
   ("show processes", "show system resources"),
   ("show interface e1/", "show interface ethernet1/"),
   ("show int e1/", "show interface ethernet1/")]

/-- The strict-block membership test of line 546:
`command.lower().strip() in ["show bgp summary", "show bgp neighbors", "show ip bgp"]`. -/
def strictBlocked (command : String) : Bool :=
  lowerStrip command = "show bgp summary" || lowerStrip command = "show bgp neighbors" ||
    lowerStrip command = "show ip bgp"

/-- The strict-block replacement chain of lines 547-552. -/
def strictReplacement (command : String) : String :=
  if pyContains (pyLower command) "show bgp neighbors" then "show bgp l2vpn evpn neighbors"
  else if pyContains (pyLower command) "show bgp summary" then "show bgp l2vpn evpn summary"
  else if pyContains (pyLower command) "show ip bgp" then "show bgp ipv4 unicast summary"
  else command

/-- The final interface-shorthand pass of lines 567-569 (a case-sensitive
substring test on the already-corrected command). -/
def finalPass (v : String) : String :=
  if pyContains v "show interface e1/" then
    pyReplace v "show interface e1/" "show interface ethernet1/"
  else v

/-- The per-command body of the `for command in commands` loop of
`validate_nexus_commands` (lines 541-571): strict blocking first; otherwise
the first general-correction entry whose key occurs in `command.lower()` is
applied to `command.lower()`; the interface-shorthand pass runs last. -/
def validateOne (command : String) : String :=
  let v :=
    if strictBlocked command then strictReplacement command
    else
      match ios_to_nexus.find? (fun p => pyContains (pyLower command) p.1) with
      | some (ios_cmd, nexus_cmd) => pyReplace (pyLower command) ios_cmd nexus_cmd
      | none => command
  finalPass v

/-- `validate_nexus_commands(commands)` (lines 525-573). -/
def validate_nexus_commands (commands : List String) : List String :=
  commands.map validateOne

/-! ### The Outcome Classifier (`is_command_failure` lines 875-887,
`suggest_command_correction` lines 788-818) -/

/-- The literal failure markers of lines 877-885. -/
def failure_indicators : List String :=
  ["Invalid command", "% Invalid", "Syntax error", "Command not found",
   "% Ambiguous command", "Permission denied", "Authentication failed"]

/-- `is_command_failure(output)`:
`any(indicator in output for indicator in failure_indicators)`. -/
def is_command_failure (output : String) : Bool :=
  failure_indicators.any (fun ind => pyContains output ind)

/-- The `corrections` table of `suggest_command_correction` (lines 792-798),
in insertion order. -/
def suggestCorrections : List (String × String) :=
  [("show bgp neighbors", "show bgp l2vpn evpn neighbors"),
   ("show bgp summary", "show bgp l2vpn evpn summary"),
   ("show ip bgp", "show bgp l2vpn evpn"),
   ("show processes cpu", "show system resources"),
   ("show processes", "show system resources")]

/-- `suggest_command_correction(failed_command, error_output)` (lines 788-818):
exact lookup, then first substring match with `str.replace`, then the
BGP-topic fallback, else no suggestion.  The `error_output` argument is
unused by the source as well. -/
def suggest_command_correction (failed_command : String) (error_output : String) :
    Option String :=
  match suggestCorrections.find? (fun p => p.1 = failed_command) with
  | some p => some p.2
  | none =>
    match suggestCorrections.find? (fun p => pyContains failed_command p.1) with
    | some (wrong_cmd, correct_cmd) => some (pyReplace failed_command wrong_cmd correct_cmd)
    | none =>
      if pyContains (pyLower failed_command) "bgp" then
        if pyContains (pyLower failed_command) "neighbor" then
          some "show bgp l2vpn evpn neighbors"
        else if pyContains (pyLower failed_command) "summary" then
          some "show bgp l2vpn evpn summary"
        else some "show bgp l2vpn evpn summary"
      else none

/-! ### The Stream Framer (the output-accumulation loop of `execute_command`,
source lines 110-135) -/

/-- Result of the accumulation loop: the accumulated buffer, whether the loop
broke early on a recognized prompt, and the characters sent to the shell to
advance pagination. -/
structure FrameResult where
  buffer : String
  early : Bool
  sends : List String
  deriving Repr, DecidableEq

/-- The per-chunk prompt test of line 122:
`re.search(r'[>#]\s*$', chunk.strip())`, which on a stripped string holds
exactly when it is non-empty and ends in `>` or `#`. -/
def promptDetected (chunk : String) : Bool :=
  pyEndsWith (pyStrip chunk) ">" || pyEndsWith (pyStrip chunk) "#"

/-- The prompt property of the claim and of the specification: the trailing
non-whitespace of the whole accumulated buffer is `>` or `#`. -/
def promptBuffer (buffer : String) : Bool :=
  pyEndsWith (pyStrip buffer) ">" || pyEndsWith (pyStrip buffer) "#"

/-- The pagination-marker test of line 124. -/
def hasMoreMarker (chunk : String) : Bool := pyContains chunk "--More--"

/-- The `while timeout_count < max_timeouts` accumulation loop of lines
111-135.  The receive stream is modelled as a finite script of chunks; an
empty chunk stands for a zero-byte read or a `socket.timeout` (both only
increment `timeout_count`), and once the script is exhausted every further
poll is empty, so the loop is guaranteed to give up after at most
`max_timeouts` more iterations with the buffer unchanged — hence the
immediate return.  A pagination marker causes a single space to be sent
(line 125), which affects only the remote device, never the buffer. -/
def frameLoop : List String → String → Nat → FrameResult
  | [], buffer, _ => ⟨buffer, false, []⟩
  | chunk :: rest, buffer, tc =>
    if 10 ≤ tc then ⟨buffer, false, []⟩
    else if chunk ≠ "" then
      let buf := buffer ++ chunk
      if promptDetected chunk then ⟨buf, true, []⟩
      else if hasMoreMarker chunk then
        let r := frameLoop rest buf 0
        ⟨r.buffer, r.early, " " :: r.sends⟩
      else frameLoop rest buf 0
    else frameLoop rest buffer (tc + 1)

/-! ### The Session Transport client (`execute_command` lines 71-147 and
`execute_command_block` lines 149-200), modelled as the text sent to and
received from the shell -/

/-- The configuration-keyword list of lines 95-97. -/
def configKeywords : List String :=
  ["configure terminal", "interface ethernet", "interface vlan", "router bgp",
   "vlan ", "snmp-server", "feature ", "vpc ", "no shutdown", "shutdown",
   "description ", "ip address", "switchport", "neighbor ", "address-family"]

/-- The config-mode classification of lines 92-98. -/
def is_config_command (command : String) : Bool :=
  let cl := lowerStrip command
  !(pyStartsWith cl "show " || pyStartsWith cl "display ") &&
    configKeywords.any (fun k => pyContains cl k)

/-- `execute_command(command)` over a given receive script, producing the
returned output (`buffer.strip()`, line 144) and the ordered list of strings
sent to the shell: pagination disable (line 87), optional configuration
entry (line 102), the command itself (line 107), any pagination-advance
spaces from the accumulation loop, and the optional configuration exit
(line 139). -/
def execute_command_model (command : String) (script : List String) :
    String × List String :=
  let cfg := is_config_command command
  let r := frameLoop script "" 0
  (pyStrip r.buffer,
   ["terminal length 0\n"] ++ (if cfg then ["configure terminal\n"] else []) ++
     [command ++ "\n"] ++ r.sends ++ (if cfg then ["end\n"] else []))

/-- The inner `while "--More--" in chunk` loop of lines 181-185 for one
command of a block: returns the additional buffer text, the spaces sent, and
the unconsumed rest of the receive script.  An exhausted script models a
receive timeout, on which the `except` of line 187 appends the error
marker. -/
def blockMore (command : String) : String → List String → String × List String × List String
  | chunk, [] =>
    if hasMoreMarker chunk then
      ("\n--- Command: " ++ command ++ " ---\n[Timeout or error reading output]\n",
       [" "], [])
    else ("", [], [])
  | chunk, c2 :: rest =>
    if hasMoreMarker chunk then
      let r := blockMore command c2 rest
      (c2 ++ r.1, " " :: r.2.1, r.2.2)
    else ("", [], c2 :: rest)

/-- The per-command body of lines 170-188: one receive, the command header,
then pagination handling; an immediately exhausted script takes the
`except` branch of line 187. -/
def blockPerCmd (command : String) : List String → String × List String × List String
  | [] =>
    ("\n--- Command: " ++ command ++ " ---\n[Timeout or error reading output]\n", [], [])
  | chunk :: rest =>
    let r := blockMore command chunk rest
    ("\n--- Command: " ++ command ++ " ---\n" ++ chunk ++ r.1,
     r.2.1, r.2.2)

/-- The `for command in commands` loop of lines 170-188, threading the
receive script through the block and collecting buffer text and sends (each
command is sent at line 171). -/
def blockLoop : List String → List String → String × List String × List String
  | [], script => ("", [], script)
  | c :: cs, script =>
    let r := blockPerCmd c script
    let r2 := blockLoop cs r.2.2
    (r.1 ++ r2.1, ((c ++ "\n") :: r.2.1) ++ r2.2.1, r2.2.2)

/-- `execute_command_block(commands)` over a receive script: pagination
disable (line 165), the command loop, then the configuration exit `end`
(line 191) and the final receive of line 193, whose failure is caught by the
outer handler of line 199 and turns the whole result into a failure
message. -/
def execute_command_block_model (commands : List String) (script : List String) :
    String × List String :=
  let r := blockLoop commands script
  let sends := ["terminal length 0\n"] ++ r.2.1 ++ ["end\n"]
  match r.2.2 with
  | [] => ("Command block execution failed: timeout", sends)
  | fc :: _ => (pyStrip (r.1 ++ fc), sends)

/-- The sends of a sequence of `execute_command` calls over one SSH session,
as performed by the Orchestrator when it executes several individual
commands against one connected client. -/
def sessionSends (commands : List String) (scriptOf : String → List String) :
    List String :=
  (commands.map (fun c => (execute_command_model c (scriptOf c)).2)).flatten

/-! ### The Execution Orchestrator (`execute_commands_on_switch`,
source lines 889-1009) -/

/-- The mutable session context of the tool (source lines 420-424);
`session_notes` is never touched by `execute_commands_on_switch`. -/
structure Context where
  last_command : Option String
  last_output : Option String
  session_notes : List String
  deriving Repr, DecidableEq

/-- One appended history record (source lines 955-960 and 999-1004), with
the wall-clock timestamp abstracted to a number supplied by the
environment. -/
structure HistoryEntry where
  timestamp : Nat
  switch : String
  command : String
  output : String
  deriving Repr, DecidableEq

/-- One observable interaction with the transport: a single-command
execution or a block execution. -/
inductive ExecEvent where
  | single (command : String)
  | block (commands : List String)
  deriving Repr, DecidableEq

/-- The deterministic environment a run is executed against: whether the SSH
connection succeeds, the device's response to each command or block, the
`show_raw` batch flag, the interactive confirmation answers, and the device
identity/timestamp used for history records. -/
structure Env where
  connectOk : Bool
  exec : String → String
  execBlock : List String → String
  show_raw : Bool
  confirm : String → Bool
  hostname : String
  now : Nat

/-- The state accumulated during one `execute_commands_on_switch` run: the
local `results` dict, the instance-level command history and context, and
the log of transport interactions. -/
structure RunState where
  results : List (String × String)
  history : List HistoryEntry
  ctx : Context
  events : List ExecEvent
  deriving Repr, DecidableEq

/-- Python `results.get(k, d)`. -/
def lookupD (m : List (String × String)) (k d : String) : String :=
  ((m.find? (fun p => p.1 = k)).map Prod.snd).getD d

/-- The history-record truncation of lines 959 and 1003:
`output[:500] + "..." if len(output) > 500 else output`. -/
def truncate500 (s : String) : String :=
  if s.length > 500 then pyTake s 500 ++ "..." else s

/-- A history record built from the just-updated context (lines 955-960 and
999-1004). -/
def histAppend (env : Env) (ctx : Context) : HistoryEntry :=
  { timestamp := env.now, switch := env.hostname,
    command := ctx.last_command.getD "",
    output := truncate500 (ctx.last_output.getD "") }

/-- The normal (non-retried) recording path of an individual block inside the
grouped branch: `results[command] = output` (line 936), the context update of
lines 947-949 (note `results.get(block_commands[0], "")`), and the history
append of lines 955-960. -/
def recordIndiv (env : Env) (st : RunState) (block_commands : List String)
    (command output : String) : RunState :=
  let results := dictInsert st.results command output
  let ctx : Context :=
    { last_command := some (block_commands.headD ""),
      last_output := some (lookupD results (block_commands.headD "") ""),
      session_notes := st.ctx.session_notes }
  { results := results, history := st.history ++ [histAppend env ctx],
    ctx := ctx, events := st.events }

/-- One iteration of the `for block_name, block_commands in
interface_blocks.items()` loop (lines 904-960).  In the failure-with-
suggestion case the `continue` statements of lines 927 and 932 skip the
context update and the history append. -/
def execBlockStep (env : Env) (st : RunState) (blk : String × List String) : RunState :=
  let block_name := blk.1
  let block_commands := blk.2
  if pyStartsWith block_name "individual_" then
    let command := block_commands.headD ""
    let output := env.exec command
    let st1 : RunState := { st with events := st.events ++ [ExecEvent.single command] }
    if is_command_failure output then
      match suggest_command_correction command output with
      | some suggested =>
        if env.show_raw then
          { st1 with results := dictInsert st1.results suggested (env.exec suggested),
                     events := st1.events ++ [ExecEvent.single suggested] }
        else if env.confirm suggested then
          { st1 with results := dictInsert st1.results suggested (env.exec suggested),
                     events := st1.events ++ [ExecEvent.single suggested] }
        else recordIndiv env st1 block_commands command output
      | none => recordIndiv env st1 block_commands command output
    else recordIndiv env st1 block_commands command output
  else
    let combined := env.execBlock block_commands
    let key := "Interface Config: " ++ block_name
    let results := dictInsert st.results key combined
    let ctx : Context :=
      { last_command := some key, last_output := some (lookupD results key ""),
        session_notes := st.ctx.session_notes }
    { results := results, history := st.history ++ [histAppend env ctx],
      ctx := ctx, events := st.events ++ [ExecEvent.block block_commands] }

/-- The normal recording path of the ungrouped branch: line 992 and the
context/history updates of lines 995-1004 (here `last_output` is the raw
output, not a `results` lookup). -/
def recordCmd (env : Env) (st : RunState) (command output : String) : RunState :=
  let results := dictInsert st.results command output
  let ctx : Context :=
    { last_command := some command, last_output := some output,
      session_notes := st.ctx.session_notes }
  { results := results, history := st.history ++ [histAppend env ctx],
    ctx := ctx, events := st.events }

/-- One iteration of the ungrouped `for command in commands` loop
(lines 963-1004), with the same `continue`-skips on the retry paths
(lines 983 and 988). -/
def execCmdStep (env : Env) (st : RunState) (command : String) : RunState :=
  let output := env.exec command
  let st1 : RunState := { st with events := st.events ++ [ExecEvent.single command] }
  if is_command_failure output then
    match suggest_command_correction command output with
    | some suggested =>
      if env.show_raw then
        { st1 with results := dictInsert st1.results suggested (env.exec suggested),
                   events := st1.events ++ [ExecEvent.single suggested] }
      else if env.confirm suggested then
        { st1 with results := dictInsert st1.results suggested (env.exec suggested),
                   events := st1.events ++ [ExecEvent.single suggested] }
      else recordCmd env st1 command output
    | none => recordCmd env st1 command output
  else recordCmd env st1 command output

/-- `execute_commands_on_switch(commands, switch)` (lines 889-1009): on a
connection failure the single structured error of line 894 is returned and
nothing else happens; otherwise the commands are grouped and either the
block loop or the per-command loop runs.  `history₀` and `ctx₀` are the
instance-level `command_history` and `context` before the call. -/
def execute_commands_on_switch (env : Env) (commands : List String)
    (history₀ : List HistoryEntry) (ctx₀ : Context) : RunState :=
  if env.connectOk then
    let blocks := group_interface_commands commands
    if blocks ≠ [] then
      blocks.foldl (execBlockStep env) ⟨[], history₀, ctx₀, []⟩
    else
      commands.foldl (execCmdStep env) ⟨[], history₀, ctx₀, []⟩
  else
    ⟨[("error", "Failed to connect to " ++ env.hostname)], history₀, ctx₀, []⟩

/-! ### Reference descriptions used to state and prove the theorems -/

/-- The `(key, value)` pair a single command contributes to `results`
(lines 963-992): the suggested command with its fresh output when the retry
path is taken, the command itself with its output otherwise. -/
def cmdWrite (env : Env) (c : String) : String × String :=
  let out := env.exec c
  if is_command_failure out then
    match suggest_command_correction c out with
    | some s => if env.show_raw || env.confirm s then (s, env.exec s) else (c, out)
    | none => (c, out)
  else (c, out)

/-- Whether a command takes the retry path (detected failure, available
suggestion, and the policy gate of lines 979/984 approves). -/
def cmdRetried (env : Env) (c : String) : Bool :=
  let out := env.exec c
  is_command_failure out &&
    (match suggest_command_correction c out with
     | some s => env.show_raw || env.confirm s
     | none => false)

/-- The `(key, value)` pair a block contributes to `results` (lines 904-944). -/
def blockWrite (env : Env) (blk : String × List String) : String × String :=
  if pyStartsWith blk.1 "individual_" then cmdWrite env (blk.2.headD "")
  else ("Interface Config: " ++ blk.1, env.execBlock blk.2)

/-- Whether a block takes the retry path (only individual blocks can). -/
def blockRetried (env : Env) (blk : String × List String) : Bool :=
  pyStartsWith blk.1 "individual_" && cmdRetried env (blk.2.headD "")

/-- The context value after a non-retried block. -/
def mkCtx (env : Env) (ctx : Context) (blk : String × List String) : Context :=
  { last_command := some (blockWrite env blk).1,
    last_output := some (blockWrite env blk).2,
    session_notes := ctx.session_notes }

/-- The history record appended for a non-retried block. -/
def blockHist (env : Env) (blk : String × List String) : HistoryEntry :=
  { timestamp := env.now, switch := env.hostname,
    command := (blockWrite env blk).1,
    output := truncate500 (blockWrite env blk).2 }

/-- The context value after a non-retried command of the ungrouped loop. -/
def mkCtxC (env : Env) (ctx : Context) (c : String) : Context :=
  { last_command := some (cmdWrite env c).1,
    last_output := some (cmdWrite env c).2,
    session_notes := ctx.session_notes }

/-- The history record appended for a non-retried command of the ungrouped
loop. -/
def cmdHist (env : Env) (c : String) : HistoryEntry :=
  { timestamp := env.now, switch := env.hostname,
    command := (cmdWrite env c).1,
    output := truncate500 (cmdWrite env c).2 }

/-- The transport events of one block. -/
def blockEvents (env : Env) (blk : String × List String) : List ExecEvent :=
  if pyStartsWith blk.1 "individual_" then
    let c := blk.2.headD ""
    ExecEvent.single c ::
      (if cmdRetried env c then [ExecEvent.single ((suggest_command_correction c (env.exec c)).getD "")] else [])
  else [ExecEvent.block blk.2]

/-- The grouper's own order-preserving classification of the input: the same
branch tests as `groupStep`, collecting the commands that enter named blocks
and the individual commands as two plain lists. -/
structure RState where
  openTok : Option String
  grouped : List String
  indiv : List String
  deriving Repr, DecidableEq

/-- Reference step mirroring the branch structure of `groupStep`. -/
def refStep (s : RState) (command : String) : RState :=
  let cl := lowerStrip command
  if isShowCmd cl then { s with indiv := s.indiv ++ [command] }
  else if isIfaceCmd cl then
    { s with openTok := some (tokenOf command), grouped := s.grouped ++ [command] }
  else if optTruthy s.openTok && hasIfaceKeyword cl then
    { s with grouped := s.grouped ++ [command] }
  else if cl = "configure terminal" then s
  else { s with openTok := none, indiv := s.indiv ++ [command] }

/-- The reference run over a whole input. -/
def refRun (commands : List String) : RState :=
  commands.foldl refStep ⟨none, [], []⟩

/-- The commands on which the grouper drops input: exactly those whose
lowered, stripped text is the bare configuration-entry command. -/
def nonDropped (c : String) : Bool := lowerStrip c ≠ "configure terminal"

/-- The interface token opened by a command, when it opens a named block
(the branch test of line 836 is state-independent). -/
def openerToken (c : String) : Option String :=
  let cl := lowerStrip c
  if isShowCmd cl then none
  else if isIfaceCmd cl then some (tokenOf c)
  else none

/-- All tokens opened by an input sequence, in order. -/
def openedTokens (commands : List String) : List String :=
  commands.filterMap openerToken

/-- The write-trace machine: like `groupStep`, but recording every dict
assignment `interface_blocks[k] = v` as an ordered list of writes instead of
performing it. -/
structure CState where
  commits : List (String × List String)
  cur : Option String
  curBlock : List String
  indiv : List String
  deriving Repr, DecidableEq

/-- Write-trace analogue of `groupStep`. -/
def commitStep (st : CState) (command : String) : CState :=
  let cl := lowerStrip command
  if isShowCmd cl then
    { st with indiv := st.indiv ++ [command] }
  else if isIfaceCmd cl then
    let commits :=
      match st.cur with
      | some t => if t ≠ "" ∧ st.curBlock ≠ [] then st.commits ++ [(t, st.curBlock)] else st.commits
      | none => st.commits
    { commits := commits, cur := some (tokenOf command),
      curBlock := ["configure terminal", command], indiv := st.indiv }
  else if optTruthy st.cur && hasIfaceKeyword cl then
    { st with curBlock := st.curBlock ++ [command] }
  else if cl = "configure terminal" then
    st
  else
    match st.cur with
    | some t =>
      if t ≠ "" ∧ st.curBlock ≠ [] then
        { commits := st.commits ++ [(t, st.curBlock)], cur := none, curBlock := [],
          indiv := st.indiv ++ [command] }
      else { st with indiv := st.indiv ++ [command] }
    | none => { st with indiv := st.indiv ++ [command] }

/-- The writes of the trailing individual-command loop, with their keys. -/
def indivPairs (i : Nat) : List String → List (String × List String)
  | [] => []
  | c :: rest => ("individual_" ++ Nat.repr i, [c]) :: indivPairs (i + 1) rest

/-- Every dict assignment performed by `group_interface_commands`, in
program order. -/
def allCommits (commands : List String) : List (String × List String) :=
  let st := commands.foldl commitStep ⟨[], none, [], []⟩
  let base :=
    match st.cur with
    | some t => if t ≠ "" ∧ st.curBlock ≠ [] then st.commits ++ [(t, st.curBlock)] else st.commits
    | none => st.commits
  base ++ indivPairs 0 st.indiv

/-- Interpretation of a write-trace state as a grouper state: the commits
replayed as dict assignments. -/
def toG (c : CState) : GState :=
  ⟨c.commits.foldl (fun acc p => dictInsert acc p.1 p.2) [], c.cur, c.curBlock, c.indiv⟩

/-- The last non-whitespace character of a character list, if any. -/
def lastNonWs (l : List Char) : Option Char :=
  l.foldl (fun acc c => if c.isWhitespace then acc else some c) none

/-- The value of the last write to key `k` in a write list. -/
def lastWrite (l : List (String × List String)) (k : String) : Option (List String) :=
  l.foldl (fun acc p => if p.1 = k then some p.2 else acc) none

/-- Python `m[k]`-style lookup on the association list. -/
def lookupBlocks (m : List (String × List String)) (k : String) : Option (List String) :=
  (m.find? (fun p => p.1 = k)).map Prod.snd

/-- Canonical decimal digit list of a natural number (the specification of
`Nat.toDigits 10`). -/
def decList (n : Nat) : List Char :=
  if n < 10 then [Nat.digitChar n] else decList (n / 10) ++ [Nat.digitChar (n % 10)]
termination_by n
decreasing_by exact Nat.div_lt_self (by omega) (by omega)

/-- A normalized command that triggers none of the three correction
mechanisms: not strict-blocked, matching no general-correction phrase, and
free of the interface shorthand. -/
def noTrigger (v : String) : Bool :=
  !strictBlocked v && ios_to_nexus.all (fun p => !pyContains (pyLower v) p.1) &&
    !pyContains v "show interface e1/"

/-- The one `(key, value)` results write of every executed unit of a run, in
execution order. -/
def runWrites (env : Env) (commands : List String) : List (String × String) :=
  let blocks := group_interface_commands commands
  if blocks = [] then commands.map (cmdWrite env)
  else blocks.map (blockWrite env)

/-- The history records appended by a run, in order: one per executed unit
that does not take the retry path. -/
def runHists (env : Env) (commands : List String) : List HistoryEntry :=
  let blocks := group_interface_commands commands
  if blocks = [] then (commands.filter (fun c => !cmdRetried env c)).map (cmdHist env)
  else (blocks.filter (fun b => !blockRetried env b)).map (blockHist env)

/-- The number of executed units of a run (blocks in the grouped branch,
commands in the ungrouped branch). -/
def runUnits (env : Env) (commands : List String) : Nat :=
  let blocks := group_interface_commands commands
  if blocks = [] then commands.length else blocks.length

/-- The full recorded output behind each appended history record, in
order. -/
def runRaws (env : Env) (commands : List String) : List String :=
  let blocks := group_interface_commands commands
  if blocks = [] then
    (commands.filter (fun c => !cmdRetried env c)).map (fun c => (cmdWrite env c).2)
  else (blocks.filter (fun b => !blockRetried env b)).map (fun b => (blockWrite env b).2)

/-- The transport events of one command of the ungrouped loop. -/
def cmdEvents (env : Env) (c : String) : List ExecEvent :=
  ExecEvent.single c ::
    (if cmdRetried env c then
      [ExecEvent.single ((suggest_command_correction c (env.exec c)).getD "")]
    else [])

/-- The context value at the end of a run. -/
def runCtx (env : Env) (commands : List String) (ctx₀ : Context) : Context :=
  let blocks := group_interface_commands commands
  if blocks = [] then (commands.filter (fun c => !cmdRetried env c)).foldl (mkCtxC env) ctx₀
  else (blocks.filter (fun b => !blockRetried env b)).foldl (mkCtx env) ctx₀

/-! ### Utility lemmas: decimal representations and dict behaviour -/

theorem decList_ne_nil (n : Nat) : decList n ≠ [] := by
  rw [decList]
  split <;> simp

theorem decList_lt10 (n : Nat) (h : n < 10) : decList n = [Nat.digitChar n] := by
  rw [decList, if_pos h]

theorem decList_ge10 (n : Nat) (h : ¬ n < 10) :
    decList n = decList (n / 10) ++ [Nat.digitChar (n % 10)] := by
  rw [decList, if_neg h]

theorem digitChar_inj_lt10 :
    ∀ a < 10, ∀ b < 10, Nat.digitChar a = Nat.digitChar b → a = b := by decide

theorem toDigitsCore_eq_decList :
    ∀ (fuel n : Nat) (ds : List Char), n < fuel →
      Nat.toDigitsCore 10 fuel n ds = decList n ++ ds := by
  intro fuel
  induction fuel with
  | zero => intro n ds h; omega
  | succ f ih =>
    intro n ds h
    by_cases h10 : n / 10 = 0
    · have hlt : n < 10 := by omega
      simp only [Nat.toDigitsCore, h10, if_true, decList_lt10 n hlt,
        Nat.mod_eq_of_lt hlt, List.singleton_append]
    · have hge : 10 ≤ n := Nat.le_of_not_lt (fun hlt => h10 (Nat.div_eq_of_lt hlt))
      have hdiv : n / 10 < n := Nat.div_lt_self (by omega) (by omega)
      have hf : n / 10 < f := by omega
      simp only [Nat.toDigitsCore, h10, if_false]
      rw [ih (n / 10) _ hf, decList_ge10 n (by omega), List.append_assoc,
        List.singleton_append]

theorem decList_inj : ∀ m n : Nat, decList m = decList n → m = n := by
  intro m
  induction m using Nat.strong_induction_on with
  | _ m ih =>
    intro n h
    by_cases hm : m < 10 <;> by_cases hn : n < 10
    · rw [decList_lt10 m hm, decList_lt10 n hn] at h
      exact digitChar_inj_lt10 m hm n hn (List.singleton_injective h)
    · rw [decList_lt10 m hm, decList_ge10 n hn] at h
      have hlen := congrArg List.length h
      simp only [List.length_cons, List.length_append, List.length_nil] at hlen
      exact absurd (List.length_eq_zero.mp (by omega)) (decList_ne_nil (n / 10))
    · rw [decList_ge10 m hm, decList_lt10 n hn] at h
      have hlen := congrArg List.length h
      simp only [List.length_cons, List.length_append, List.length_nil] at hlen
      exact absurd (List.length_eq_zero.mp (by omega)) (decList_ne_nil (m / 10))
    · rw [decList_ge10 m hm, decList_ge10 n hn] at h
      obtain ⟨h1, h2⟩ := List.append_inj' h rfl
      have hmod : m % 10 = n % 10 :=
        digitChar_inj_lt10 _ (Nat.mod_lt _ (by omega)) _ (Nat.mod_lt _ (by omega))
          (List.singleton_injective h2)
      have hdivlt : m / 10 < m := Nat.div_lt_self (by omega) (by omega)
      have hdiv : m / 10 = n / 10 := ih (m / 10) hdivlt (n / 10) h1
      have em := Nat.div_add_mod m 10
      have en := Nat.div_add_mod n 10
      omega

theorem repr_data_eq_decList (n : Nat) : (Nat.repr n).data = decList n := by
  show (Nat.toDigits 10 n).asString.data = decList n
  rw [Nat.toDigits, toDigitsCore_eq_decList (n + 1) n [] (Nat.lt_succ_self n)]
  simp [List.asString]

theorem natRepr_inj {m n : Nat} (h : Nat.repr m = Nat.repr n) : m = n :=
  decList_inj m n (by rw [← repr_data_eq_decList, ← repr_data_eq_decList, h])

theorem string_data_append (a b : String) : (a ++ b).data = a.data ++ b.data := rfl

theorem indivKey_inj {i j : Nat}
    (h : ("individual_" ++ Nat.repr i : String) = "individual_" ++ Nat.repr j) : i = j := by
  have hd := congrArg String.data h
  rw [string_data_append, string_data_append] at hd
  have : (Nat.repr i).data = (Nat.repr j).data := List.append_cancel_left hd
  exact decList_inj i j (by rw [← repr_data_eq_decList, ← repr_data_eq_decList, this])

theorem indivKey_startsWith (i : Nat) :
    pyStartsWith ("individual_" ++ Nat.repr i) "individual_" = true := by
  have : ∀ (a b : List Char), listPre a (a ++ b) = true := by
    intro a
    induction a with
    | nil => intro b; rfl
    | cons c cs ih => intro b; simp [listPre, ih]
  simpa [pyStartsWith, string_data_append] using this "individual_".data (Nat.repr i).data

/-- Keys of an association list. -/
theorem dictInsert_not_mem {α : Type} (m : List (String × α)) (k : String) (v : α)
    (h : k ∉ m.map Prod.fst) : dictInsert m k v = m ++ [(k, v)] := by
  induction m with
  | nil => rfl
  | cons p rest ih =>
    simp only [List.map_cons, List.mem_cons] at h
    push_neg at h
    simp [dictInsert, Ne.symm h.1, ih h.2]

theorem dictInsert_keys {α : Type} (m : List (String × α)) (k : String) (v : α) :
    (dictInsert m k v).map Prod.fst =
      if k ∈ m.map Prod.fst then m.map Prod.fst else m.map Prod.fst ++ [k] := by
  induction m with
  | nil => simp [dictInsert]
  | cons p rest ih =>
    by_cases hk : p.1 = k
    · simp [dictInsert, hk]
    · simp only [dictInsert, if_neg hk, List.map_cons, ih, List.mem_cons]
      by_cases hmem : k ∈ rest.map Prod.fst <;> simp [hmem, Ne.symm hk]

theorem splitWsAux_ne_nil :
    ∀ (l acc : List Char), ∀ x ∈ splitWsAux acc l, x ≠ [] := by
  intro l
  induction l with
  | nil =>
    intro acc x hx
    by_cases h : acc = []
    · simp [splitWsAux, h] at hx
    · simp only [splitWsAux, beq_iff_eq, h, if_false, List.mem_singleton] at hx
      subst hx
      simpa using h
  | cons c rest ih =>
    intro acc x hx
    by_cases hw : c.isWhitespace
    · by_cases h : acc = []
      · simp only [splitWsAux, hw, if_true, beq_iff_eq, h, if_true] at hx
        exact ih [] x hx
      · simp only [splitWsAux, hw, if_true, beq_iff_eq, h, if_false, List.mem_cons] at hx
        rcases hx with rfl | hx
        · simpa using h
        · exact ih [] x hx
    · simp only [splitWsAux, hw, if_false] at hx
      exact ih (c :: acc) x hx

theorem tokenOf_ne_empty (c : String) : tokenOf c ≠ "" := by
  have hunk : ("unknown" : String) ≠ "" := by decide
  unfold tokenOf
  cases h : pyTokens c with
  | nil => exact hunk
  | cons a rest =>
    cases rest with
    | nil => exact hunk
    | cons t rest2 =>
      show t ≠ ""
      have ht : t ∈ pyTokens c := by rw [h]; simp
      unfold pyTokens at ht
      obtain ⟨l, hl, hlt⟩ := List.mem_map.mp ht
      have hne := splitWsAux_ne_nil _ _ l hl
      intro he
      apply hne
      have hd : t.data = ("" : String).data := by rw [he]
      rw [← hlt] at hd
      simpa using hd

theorem lowerStrip_ct : lowerStrip "configure terminal" = "configure terminal" := by decide

theorem isShowCmd_ct : isShowCmd "configure terminal" = false := by decide

theorem isIfaceCmd_ct : isIfaceCmd "configure terminal" = false := by decide

theorem hasIfaceKeyword_ct : hasIfaceKeyword "configure terminal" = false := by decide

/-- A command routed to the read-only branch is not the bare
configuration-entry command. -/
theorem ne_ct_of_show {c : String} (h : isShowCmd (lowerStrip c) = true) :
    c ≠ "configure terminal" := by
  intro he; subst he; rw [lowerStrip_ct] at h; rw [isShowCmd_ct] at h; cases h

/-- A command routed to the interface-opening branch is not the bare
configuration-entry command. -/
theorem ne_ct_of_iface {c : String} (h : isIfaceCmd (lowerStrip c) = true) :
    c ≠ "configure terminal" := by
  intro he; subst he; rw [lowerStrip_ct] at h; rw [isIfaceCmd_ct] at h; cases h

/-- A command routed to the sub-command branch is not the bare
configuration-entry command. -/
theorem ne_ct_of_keyword {c : String} (h : hasIfaceKeyword (lowerStrip c) = true) :
    c ≠ "configure terminal" := by
  intro he; subst he; rw [lowerStrip_ct] at h; rw [hasIfaceKeyword_ct] at h; cases h

/-- A command routed to the closing branch is not the bare
configuration-entry command. -/
theorem ne_ct_of_other {c : String} (h : ¬ lowerStrip c = "configure terminal") :
    c ≠ "configure terminal" := by
  intro he; subst he; exact h lowerStrip_ct

theorem withoutMarkers_append (a b : List String) :
    withoutMarkers (a ++ b) = withoutMarkers a ++ withoutMarkers b := by
  simp [withoutMarkers, List.filter_append]

theorem withoutMarkers_block (c : String) (hc : c ≠ "configure terminal") :
    withoutMarkers ["configure terminal", c] = [c] := by
  simp [withoutMarkers, hc]

theorem withoutMarkers_single (c : String) (hc : c ≠ "configure terminal") :
    withoutMarkers [c] = [c] := by
  simp [withoutMarkers, hc]

theorem lookupBlocks_dictInsert (m : List (String × List String)) (k k' : String)
    (v : List String) :
    lookupBlocks (dictInsert m k v) k' = if k = k' then some v else lookupBlocks m k' := by
  induction m with
  | nil =>
    by_cases h : k = k' <;> simp [dictInsert, lookupBlocks, List.find?_cons, h]
  | cons p rest ih =>
    obtain ⟨pk, pv⟩ := p
    by_cases hpk : pk = k
    · by_cases hkk : k = k'
      · subst hkk
        simp [dictInsert, lookupBlocks, List.find?_cons, hpk]
      · have hpk' : ¬ pk = k' := by rw [hpk]; exact hkk
        simp [dictInsert, lookupBlocks, List.find?_cons, hpk, hpk', hkk]
    · by_cases hpk' : pk = k'
      · have hkk : ¬ k = k' := by intro he; exact hpk (by rw [he, hpk'])
        simp only [dictInsert, if_neg hpk]
        rw [if_neg hkk]
        simp [lookupBlocks, List.find?_cons, hpk']
      · simp only [dictInsert, if_neg hpk]
        simp [lookupBlocks, List.find?_cons, hpk'] at ih ⊢
        exact ih

theorem lastWrite_nil (k : String) : lastWrite [] k = none := rfl

theorem lastWrite_foldl (k : String) :
    ∀ (l : List (String × List String)) (a : Option (List String)),
      l.foldl (fun acc p => if p.1 = k then some p.2 else acc) a =
        (lastWrite l k).or a := by
  intro l
  induction l with
  | nil => intro a; simp [lastWrite]
  | cons p rest ih =>
    intro a
    have hcons : lastWrite (p :: rest) k =
        (lastWrite rest k).or (if p.1 = k then some p.2 else none) := by
      show List.foldl _ _ (p :: rest) = _
      rw [List.foldl_cons, ih]
    rw [List.foldl_cons, ih, hcons]
    cases hlw : lastWrite rest k <;> by_cases hpk : p.1 = k <;>
      simp [hpk, Option.or]

theorem lookupBlocks_foldl_dictInsert :
    ∀ (l m : List (String × List String)) (k : String),
      lookupBlocks (l.foldl (fun acc p => dictInsert acc p.1 p.2) m) k =
        (lastWrite l k).or (lookupBlocks m k) := by
  intro l
  induction l with
  | nil => intro m k; simp [lastWrite]
  | cons p rest ih =>
    intro m k
    have hcons : lastWrite (p :: rest) k =
        (lastWrite rest k).or (if p.1 = k then some p.2 else none) := by
      show List.foldl _ _ (p :: rest) = _
      rw [List.foldl_cons, lastWrite_foldl]
    rw [List.foldl_cons, ih, lookupBlocks_dictInsert, hcons]
    cases hlw : lastWrite rest k <;> by_cases hpk : p.1 = k <;>
      simp [hpk, Option.or]

theorem keys_foldl_dictInsert_nodup :
    ∀ (l m : List (String × List String)),
      ((m.map Prod.fst).Nodup) →
      (((l.foldl (fun acc p => dictInsert acc p.1 p.2) m).map Prod.fst).Nodup) := by
  intro l
  induction l with
  | nil => intro m hm; simpa using hm
  | cons p rest ih =>
    intro m hm
    rw [List.foldl_cons]
    apply ih
    rw [dictInsert_keys]
    by_cases hmem : p.1 ∈ m.map Prod.fst
    · simpa [hmem] using hm
    · simp [hmem, List.nodup_append, hm]

theorem lookup_of_mem_nodup :
    ∀ (m : List (String × List String)) (t : String) (v : List String),
      (t, v) ∈ m → ((m.map Prod.fst).Nodup) → lookupBlocks m t = some v := by
  intro m
  induction m with
  | nil => intro t v hm; cases hm
  | cons p rest ih =>
    intro t v hm hn
    rcases List.mem_cons.mp hm with rfl | hm'
    · simp [lookupBlocks, List.find?_cons]
    · have ht : t ∈ rest.map Prod.fst :=
        List.mem_map.mpr ⟨(t, v), hm', rfl⟩
      have hp : ¬ p.1 = t := by
        intro he
        rw [List.map_cons, List.nodup_cons] at hn
        exact hn.1 (he ▸ ht)
      have htail := ih t v hm' (by rw [List.map_cons, List.nodup_cons] at hn; exact hn.2)
      simp only [lookupBlocks, List.find?_cons, hp] at htail ⊢
      simpa [lookupBlocks] using htail

/-! ### The grouper as a replay of its write trace -/

theorem groupStep_toG (c : CState) (a : String) :
    groupStep (toG c) a = toG (commitStep c a) := by
  obtain ⟨commits, cur, curBlock, indiv⟩ := c
  simp only [groupStep, commitStep, toG]
  by_cases h1 : isShowCmd (lowerStrip a) = true
  · simp [h1]
  · by_cases h2 : isIfaceCmd (lowerStrip a) = true
    · cases cur with
      | none => simp [h1, h2]
      | some t =>
        by_cases hcond : t ≠ "" ∧ curBlock ≠ []
        · simp [h1, h2, hcond, List.foldl_append]
        · simp [h1, h2, hcond]
    · by_cases h3 : (optTruthy cur && hasIfaceKeyword (lowerStrip a)) = true
      · simp [h1, h2, h3]
      · by_cases h4 : lowerStrip a = "configure terminal"
        · simp [h1, h2, h3, h4, isShowCmd_ct, isIfaceCmd_ct, hasIfaceKeyword_ct]
        · cases cur with
          | none => simp [h1, h2, h3, h4]
          | some t =>
            by_cases hcond : t ≠ "" ∧ curBlock ≠ []
            · simp [h1, h2, h3, h4, hcond, List.foldl_append]
            · simp [h1, h2, h3, h4, hcond]

theorem foldl_groupStep_toG (l : List String) :
    ∀ c : CState, l.foldl groupStep (toG c) = toG (l.foldl commitStep c) := by
  induction l with
  | nil => intro c; rfl
  | cons a rest ih =>
    intro c
    rw [List.foldl_cons, List.foldl_cons, groupStep_toG, ih]

theorem addIndividuals_eq_foldl :
    ∀ (l : List String) (m : List (String × List String)) (i : Nat),
      addIndividuals m i l = (indivPairs i l).foldl (fun acc p => dictInsert acc p.1 p.2) m := by
  intro l
  induction l with
  | nil => intro m i; rfl
  | cons a rest ih =>
    intro m i
    simp only [addIndividuals, indivPairs, List.foldl_cons]
    exact ih _ _

theorem group_eq_allCommits_fold (cmds : List String) :
    group_interface_commands cmds =
      (allCommits cmds).foldl (fun acc p => dictInsert acc p.1 p.2) [] := by
  unfold group_interface_commands allCommits
  rw [show (⟨[], none, [], []⟩ : GState) = toG ⟨[], none, [], []⟩ from rfl,
    foldl_groupStep_toG, addIndividuals_eq_foldl, List.foldl_append]
  congr 1
  unfold commitFinal toG
  cases hc : (cmds.foldl commitStep ⟨[], none, [], []⟩).cur with
  | none => rfl
  | some t =>
    by_cases hcond : t ≠ "" ∧ (cmds.foldl commitStep ⟨[], none, [], []⟩).curBlock ≠ []
    · simp [hcond, List.foldl_append]
    · simp [hcond]

/-! ### The write trace against the order-preserving reference classification -/

theorem openerToken_toList_append (a : String) (l : List String) :
    openedTokens (a :: l) = (openerToken a).toList ++ openedTokens l := by
  unfold openedTokens
  rw [List.filterMap_cons]
  cases h : openerToken a <;> simp [h]

theorem commit_ref_step (c : CState) (r : RState) (a : String)
    (h1 : c.cur = r.openTok)
    (h2 : ∀ t, c.cur = some t → t ≠ "" ∧ c.curBlock ≠ [])
    (h3 : c.cur = none → c.curBlock = [])
    (h4 : withoutMarkers ((c.commits.map Prod.snd).flatten ++ c.curBlock) = r.grouped)
    (h5 : c.indiv = r.indiv)
    (h6 : ∀ x ∈ c.indiv, x ≠ "configure terminal") :
    (commitStep c a).cur = (refStep r a).openTok ∧
    (∀ t, (commitStep c a).cur = some t → t ≠ "" ∧ (commitStep c a).curBlock ≠ []) ∧
    ((commitStep c a).cur = none → (commitStep c a).curBlock = []) ∧
    withoutMarkers (((commitStep c a).commits.map Prod.snd).flatten ++ (commitStep c a).curBlock)
      = (refStep r a).grouped ∧
    (commitStep c a).indiv = (refStep r a).indiv ∧
    (∀ x ∈ (commitStep c a).indiv, x ≠ "configure terminal") ∧
    (commitStep c a).commits.map Prod.fst ++ ((commitStep c a).cur).toList =
      c.commits.map Prod.fst ++ (c.cur).toList ++ (openerToken a).toList := by
  obtain ⟨commits, cur, cb, ind⟩ := c
  obtain ⟨tok, grp, ind'⟩ := r
  simp only at h1 h2 h3 h4 h5 h6
  subst h1
  subst h5
  by_cases b1 : isShowCmd (lowerStrip a) = true
  · have hne : a ≠ "configure terminal" := ne_ct_of_show b1
    have hop : openerToken a = none := by simp [openerToken, b1]
    have hc : commitStep ⟨commits, cur, cb, ind⟩ a = ⟨commits, cur, cb, ind ++ [a]⟩ := by
      simp [commitStep, b1]
    have hr : refStep ⟨cur, grp, ind⟩ a = ⟨cur, grp, ind ++ [a]⟩ := by
      simp [refStep, b1]
    rw [hc, hr, hop]
    refine ⟨rfl, h2, h3, h4, rfl, ?_, ?_⟩
    · intro x hx
      rcases List.mem_append.mp hx with hx | hx
      · exact h6 x hx
      · rw [List.mem_singleton.mp hx]; exact hne
    · simp
  · by_cases b2 : isIfaceCmd (lowerStrip a) = true
    · have hne : a ≠ "configure terminal" := ne_ct_of_iface b2
      have hop : openerToken a = some (tokenOf a) := by simp [openerToken, b1, b2]
      cases cur with
      | none =>
        have hcb : cb = [] := h3 rfl
        subst hcb
        have hc : commitStep ⟨commits, none, [], ind⟩ a =
            ⟨commits, some (tokenOf a), ["configure terminal", a], ind⟩ := by
          simp [commitStep, b1, b2]
        have hr : refStep ⟨none, grp, ind⟩ a = ⟨some (tokenOf a), grp ++ [a], ind⟩ := by
          simp [refStep, b1, b2, optTruthy]
        rw [hc, hr, hop]
        refine ⟨rfl, ?_, ?_, ?_, rfl, h6, ?_⟩
        · intro t ht
          constructor
          · injection ht with h; rw [← h]; exact tokenOf_ne_empty a
          · simp
        · intro h; cases h
        · have h4x : withoutMarkers ((List.map Prod.snd commits).flatten) = grp := by
            simpa using h4
          rw [withoutMarkers_append, withoutMarkers_block a hne, h4x]
        · simp
      | some t =>
        have hcond : t ≠ "" ∧ cb ≠ [] := h2 t rfl
        have hc : commitStep ⟨commits, some t, cb, ind⟩ a =
            ⟨commits ++ [(t, cb)], some (tokenOf a), ["configure terminal", a], ind⟩ := by
          simp [commitStep, b1, b2, hcond.1, hcond.2]
        have hr : refStep ⟨some t, grp, ind⟩ a = ⟨some (tokenOf a), grp ++ [a], ind⟩ := by
          simp [refStep, b1, b2]
        rw [hc, hr, hop]
        refine ⟨rfl, ?_, ?_, ?_, rfl, h6, ?_⟩
        · intro t' ht'
          constructor
          · injection ht' with h; rw [← h]; exact tokenOf_ne_empty a
          · simp
        · intro h; cases h
        · have hflat : (List.map Prod.snd (commits ++ [(t, cb)])).flatten
              = (List.map Prod.snd commits).flatten ++ cb := by simp
          rw [hflat, withoutMarkers_append, withoutMarkers_block a hne, h4]
        · simp
    · by_cases b3 : (optTruthy cur && hasIfaceKeyword (lowerStrip a)) = true
      · rw [Bool.and_eq_true] at b3
        cases cur with
        | none => simp [optTruthy] at b3
        | some t =>
          have hkw : hasIfaceKeyword (lowerStrip a) = true := b3.2
          have hne : a ≠ "configure terminal" := ne_ct_of_keyword hkw
          have hop : openerToken a = none := by simp [openerToken, b1, b2]
          have hcond : t ≠ "" ∧ cb ≠ [] := h2 t rfl
          have hc : commitStep ⟨commits, some t, cb, ind⟩ a =
              ⟨commits, some t, cb ++ [a], ind⟩ := by
            simp [commitStep, b1, b2, b3.1, hkw]
          have hr : refStep ⟨some t, grp, ind⟩ a = ⟨some t, grp ++ [a], ind⟩ := by
            simp [refStep, b1, b2, b3.1, hkw]
          rw [hc, hr, hop]
          refine ⟨rfl, ?_, ?_, ?_, rfl, h6, ?_⟩
          · intro t' ht'
            constructor
            · injection ht' with h; rw [← h]; exact hcond.1
            · simp [hcond.2]
          · intro h; cases h
          · rw [← List.append_assoc, withoutMarkers_append, withoutMarkers_single a hne, h4]
          · simp
      · by_cases b4 : lowerStrip a = "configure terminal"
        · have hop : openerToken a = none := by simp [openerToken, b1, b2]
          have hc : commitStep ⟨commits, cur, cb, ind⟩ a = ⟨commits, cur, cb, ind⟩ := by
            simp [commitStep, b1, b2, b3, b4, isShowCmd_ct, isIfaceCmd_ct, hasIfaceKeyword_ct]
          have hr : refStep ⟨cur, grp, ind⟩ a = ⟨cur, grp, ind⟩ := by
            simp [refStep, b1, b2, b3, b4, isShowCmd_ct, isIfaceCmd_ct, hasIfaceKeyword_ct]
          rw [hc, hr, hop]
          refine ⟨rfl, h2, h3, h4, rfl, h6, ?_⟩
          simp
        · have hne : a ≠ "configure terminal" := ne_ct_of_other b4
          have hop : openerToken a = none := by simp [openerToken, b1, b2]
          have hind : ∀ x ∈ ind ++ [a], x ≠ "configure terminal" := by
            intro x hx
            rcases List.mem_append.mp hx with hx | hx
            · exact h6 x hx
            · rw [List.mem_singleton.mp hx]; exact hne
          cases cur with
          | none =>
            have hcb : cb = [] := h3 rfl
            subst hcb
            have hc : commitStep ⟨commits, none, [], ind⟩ a =
                ⟨commits, none, [], ind ++ [a]⟩ := by
              simp [commitStep, b1, b2, b3, b4]
            have hr : refStep ⟨none, grp, ind⟩ a = ⟨none, grp, ind ++ [a]⟩ := by
              simp [refStep, b1, b2, b3, b4, optTruthy]
            rw [hc, hr, hop]
            refine ⟨rfl, ?_, fun _ => rfl, h4, rfl, hind, ?_⟩
            · intro t h; cases h
            · simp
          | some t =>
            have hcond : t ≠ "" ∧ cb ≠ [] := h2 t rfl
            have hc : commitStep ⟨commits, some t, cb, ind⟩ a =
                ⟨commits ++ [(t, cb)], none, [], ind ++ [a]⟩ := by
              simp [commitStep, b1, b2, b3, b4, hcond.1, hcond.2]
            have hr : refStep ⟨some t, grp, ind⟩ a = ⟨none, grp, ind ++ [a]⟩ := by
              simp [refStep, b1, b2, b3, b4]
            rw [hc, hr, hop]
            refine ⟨rfl, ?_, fun _ => rfl, ?_, rfl, hind, ?_⟩
            · intro t' h; cases h
            · have hflat : (List.map Prod.snd (commits ++ [(t, cb)])).flatten
                  = (List.map Prod.snd commits).flatten ++ cb := by simp
              rw [hflat, List.append_nil, h4]
            · simp

theorem commit_ref_run (l : List String) :
    ∀ (c : CState) (r : RState),
      c.cur = r.openTok →
      (∀ t, c.cur = some t → t ≠ "" ∧ c.curBlock ≠ []) →
      (c.cur = none → c.curBlock = []) →
      withoutMarkers ((c.commits.map Prod.snd).flatten ++ c.curBlock) = r.grouped →
      c.indiv = r.indiv →
      (∀ x ∈ c.indiv, x ≠ "configure terminal") →
      ((l.foldl commitStep c).cur = (l.foldl refStep r).openTok) ∧
      (∀ t, (l.foldl commitStep c).cur = some t →
        t ≠ "" ∧ (l.foldl commitStep c).curBlock ≠ []) ∧
      ((l.foldl commitStep c).cur = none → (l.foldl commitStep c).curBlock = []) ∧
      withoutMarkers (((l.foldl commitStep c).commits.map Prod.snd).flatten ++
          (l.foldl commitStep c).curBlock) = (l.foldl refStep r).grouped ∧
      (l.foldl commitStep c).indiv = (l.foldl refStep r).indiv ∧
      (∀ x ∈ (l.foldl commitStep c).indiv, x ≠ "configure terminal") ∧
      ((l.foldl commitStep c).commits.map Prod.fst ++ ((l.foldl commitStep c).cur).toList =
        c.commits.map Prod.fst ++ (c.cur).toList ++ openedTokens l) := by
  induction l with
  | nil =>
    intro c r h1 h2 h3 h4 h5 h6
    exact ⟨h1, h2, h3, h4, h5, h6, by simp [openedTokens]⟩
  | cons a rest ih =>
    intro c r h1 h2 h3 h4 h5 h6
    obtain ⟨s1, s2, s3, s4, s5, s6, s7⟩ := commit_ref_step c r a h1 h2 h3 h4 h5 h6
    obtain ⟨t1, t2, t3, t4, t5, t6, t7⟩ := ih (commitStep c a) (refStep r a) s1 s2 s3 s4 s5 s6
    rw [List.foldl_cons, List.foldl_cons]
    refine ⟨t1, t2, t3, t4, t5, t6, ?_⟩
    rw [t7, s7, openerToken_toList_append]
    simp [List.append_assoc]

theorem nonDropped_true {a : String} (h : ¬ lowerStrip a = "configure terminal") :
    nonDropped a = true := by
  simp [nonDropped, h]

theorem nonDropped_false {a : String} (h : lowerStrip a = "configure terminal") :
    nonDropped a = false := by
  simp [nonDropped, h]

theorem not_ct_of_show {a : String} (b1 : isShowCmd (lowerStrip a) = true) :
    ¬ lowerStrip a = "configure terminal" := by
  intro h; rw [h, isShowCmd_ct] at b1; cases b1

theorem not_ct_of_iface {a : String} (b2 : isIfaceCmd (lowerStrip a) = true) :
    ¬ lowerStrip a = "configure terminal" := by
  intro h; rw [h, isIfaceCmd_ct] at b2; cases b2

theorem not_ct_of_keyword {a : String} (b3 : hasIfaceKeyword (lowerStrip a) = true) :
    ¬ lowerStrip a = "configure terminal" := by
  intro h; rw [h, hasIfaceKeyword_ct] at b3; cases b3

theorem refStep_perm (r : RState) (a : String) :
    ((refStep r a).grouped ++ (refStep r a).indiv).Perm
      ((r.grouped ++ r.indiv) ++ (if nonDropped a then [a] else [])) := by
  obtain ⟨tok, grp, ind⟩ := r
  by_cases b1 : isShowCmd (lowerStrip a) = true
  · have hr : refStep ⟨tok, grp, ind⟩ a = ⟨tok, grp, ind ++ [a]⟩ := by simp [refStep, b1]
    rw [hr, if_pos (nonDropped_true (not_ct_of_show b1))]
    simp only [List.append_assoc]
    exact List.Perm.refl _
  · by_cases b2 : isIfaceCmd (lowerStrip a) = true
    · have hr : refStep ⟨tok, grp, ind⟩ a = ⟨some (tokenOf a), grp ++ [a], ind⟩ := by
        simp [refStep, b1, b2]
      rw [hr, if_pos (nonDropped_true (not_ct_of_iface b2))]
      simp only [List.append_assoc]
      exact List.Perm.append_left grp List.perm_append_comm
    · by_cases b3 : (optTruthy tok && hasIfaceKeyword (lowerStrip a)) = true
      · have hr : refStep ⟨tok, grp, ind⟩ a = ⟨tok, grp ++ [a], ind⟩ := by
          simp only [refStep]
          rw [if_neg (by simp [b1]), if_neg (by simp [b2]), if_pos b3]
        have hkw : hasIfaceKeyword (lowerStrip a) = true := by
          have hb := b3
          rw [Bool.and_eq_true] at hb
          exact hb.2
        rw [hr, if_pos (nonDropped_true (not_ct_of_keyword hkw))]
        simp only [List.append_assoc]
        exact List.Perm.append_left grp List.perm_append_comm
      · by_cases b4 : lowerStrip a = "configure terminal"
        · have hr : refStep ⟨tok, grp, ind⟩ a = ⟨tok, grp, ind⟩ := by
            simp [refStep, b1, b2, b3, b4, isShowCmd_ct, isIfaceCmd_ct, hasIfaceKeyword_ct]
          rw [hr, if_neg (by simp [nonDropped_false b4])]
          simp
        · have hr : refStep ⟨tok, grp, ind⟩ a = ⟨none, grp, ind ++ [a]⟩ := by
            simp [refStep, b1, b2, b3, b4]
          rw [hr, if_pos (nonDropped_true b4)]
          simp only [List.append_assoc]
          exact List.Perm.refl _

theorem refRun_perm (l : List String) :
    ∀ r : RState,
      ((l.foldl refStep r).grouped ++ (l.foldl refStep r).indiv).Perm
        ((r.grouped ++ r.indiv) ++ l.filter nonDropped) := by
  induction l with
  | nil => intro r; simp
  | cons a rest ih =>
    intro r
    rw [List.foldl_cons]
    refine (ih (refStep r a)).trans ?_
    refine ((refStep_perm r a).append_right (rest.filter nonDropped)).trans ?_
    by_cases hnd : nonDropped a = true
    · rw [List.filter_cons_of_pos hnd, if_pos hnd]
      simp only [List.append_assoc, List.singleton_append]
      exact List.Perm.refl _
    · rw [List.filter_cons_of_neg (by simpa using hnd), if_neg hnd]
      simp only [List.append_nil]
      exact List.Perm.refl _

theorem refStep_cases (r : RState) (a : String) :
    ((refStep r a).grouped = r.grouped ∨ (refStep r a).grouped = r.grouped ++ [a]) ∧
    ((refStep r a).indiv = r.indiv ∨ (refStep r a).indiv = r.indiv ++ [a]) := by
  obtain ⟨tok, grp, ind⟩ := r
  by_cases b1 : isShowCmd (lowerStrip a) = true
  · simp [refStep, b1]
  · by_cases b2 : isIfaceCmd (lowerStrip a) = true
    · simp [refStep, b1, b2]
    · by_cases b3 : (optTruthy tok && hasIfaceKeyword (lowerStrip a)) = true
      · constructor
        · right
          simp only [refStep]
          rw [if_neg (by simp [b1]), if_neg (by simp [b2]), if_pos b3]
        · left
          simp only [refStep]
          rw [if_neg (by simp [b1]), if_neg (by simp [b2]), if_pos b3]
      · by_cases b4 : lowerStrip a = "configure terminal"
        · simp [refStep, b1, b2, b3, b4, isShowCmd_ct, isIfaceCmd_ct, hasIfaceKeyword_ct]
        · simp [refStep, b1, b2, b3, b4]

theorem refRun_sublists (l : List String) :
    ∀ r : RState, ∃ dg di,
      (l.foldl refStep r).grouped = r.grouped ++ dg ∧
      (l.foldl refStep r).indiv = r.indiv ++ di ∧ dg.Sublist l ∧ di.Sublist l := by
  induction l with
  | nil =>
    intro r
    exact ⟨[], [], by simp, by simp, List.nil_sublist _, List.nil_sublist _⟩
  | cons a rest ih =>
    intro r
    obtain ⟨hg, hi⟩ := refStep_cases r a
    obtain ⟨dg, di, e1, e2, s1, s2⟩ := ih (refStep r a)
    rw [List.foldl_cons] at *
    rcases hg with hg | hg <;> rcases hi with hi | hi
    · exact ⟨dg, di, by rw [e1, hg], by rw [e2, hi], s1.cons a, s2.cons a⟩
    · exact ⟨dg, a :: di, by rw [e1, hg], by rw [e2, hi]; simp, s1.cons a, s2.cons₂ a⟩
    · exact ⟨a :: dg, di, by rw [e1, hg]; simp, by rw [e2, hi], s1.cons₂ a, s2.cons a⟩
    · exact ⟨a :: dg, a :: di, by rw [e1, hg]; simp, by rw [e2, hi]; simp,
        s1.cons₂ a, s2.cons₂ a⟩

theorem foldl_dictInsert_eq_self :
    ∀ (l m : List (String × List String)),
      (((m ++ l).map Prod.fst).Nodup) →
      l.foldl (fun acc p => dictInsert acc p.1 p.2) m = m ++ l := by
  intro l
  induction l with
  | nil => intro m _; simp
  | cons p rest ih =>
    intro m hm
    have hnotin : p.1 ∉ m.map Prod.fst := by
      intro hmem
      rw [List.map_append, List.nodup_append] at hm
      exact hm.2.2 hmem (by simp)
    rw [List.foldl_cons]
    have hins : dictInsert m p.1 p.2 = m ++ [p] := by
      rw [dictInsert_not_mem m p.1 p.2 hnotin]
    rw [hins, ih (m ++ [p]) (by simpa [List.append_assoc] using hm)]
    simp

theorem indivPairs_keys_mem :
    ∀ (l : List String) (i : Nat) (k : String),
      k ∈ (indivPairs i l).map Prod.fst → ∃ j, i ≤ j ∧ k = "individual_" ++ Nat.repr j := by
  intro l
  induction l with
  | nil => intro i k hk; simp [indivPairs] at hk
  | cons a rest ih =>
    intro i k hk
    simp only [indivPairs, List.map_cons, List.mem_cons] at hk
    rcases hk with rfl | hk
    · exact ⟨i, Nat.le_refl i, rfl⟩
    · obtain ⟨j, hij, hj⟩ := ih (i + 1) k hk
      exact ⟨j, by omega, hj⟩

theorem indivPairs_keys_nodup :
    ∀ (l : List String) (i : Nat), (((indivPairs i l).map Prod.fst).Nodup) := by
  intro l
  induction l with
  | nil => intro i; simp [indivPairs]
  | cons a rest ih =>
    intro i
    simp only [indivPairs, List.map_cons, List.nodup_cons]
    refine ⟨?_, ih (i + 1)⟩
    intro hmem
    obtain ⟨j, hij, hj⟩ := indivPairs_keys_mem rest (i + 1) _ hmem
    have := indivKey_inj hj
    omega

theorem indivPairs_values :
    ∀ (l : List String) (i : Nat), ((indivPairs i l).map Prod.snd).flatten = l := by
  intro l
  induction l with
  | nil => intro i; simp [indivPairs]
  | cons a rest ih =>
    intro i
    simp [indivPairs, ih (i + 1)]

theorem withoutMarkers_id {l : List String} (h : ∀ x ∈ l, x ≠ "configure terminal") :
    withoutMarkers l = l := by
  unfold withoutMarkers
  rw [List.filter_eq_self]
  intro a ha
  simpa using h a ha

/-- The final-state description of the write trace of a run: its keys, the
grouped/individual decomposition, and the cleanliness facts, starting from
the empty initial states. -/
theorem commit_run_facts (cmds : List String) :
    (allCommits cmds).map Prod.fst =
        openedTokens cmds ++
          (indivPairs 0 (cmds.foldl commitStep ⟨[], none, [], []⟩).indiv).map Prod.fst ∧
      withoutMarkers ((allCommits cmds).map Prod.snd).flatten =
        (refRun cmds).grouped ++ (refRun cmds).indiv := by
  obtain ⟨u1, u2, u3, u4, u5, u6, u7⟩ :=
    commit_ref_run cmds ⟨[], none, [], []⟩ ⟨none, [], []⟩ rfl
      (by intro t h; cases h) (fun _ => rfl) (by simp [withoutMarkers]) rfl
      (by intro x hx; cases hx)
  simp only [List.map_nil, List.nil_append, Option.toList_none, List.append_nil] at u7
  set cf := cmds.foldl commitStep ⟨[], none, [], []⟩ with hcf
  constructor
  · show (allCommits cmds).map Prod.fst = _
    unfold allCommits
    rw [← hcf, List.map_append]
    congr 1
    cases hcur : cf.cur with
    | none =>
      simp only []
      rw [← u7, hcur]
      simp
    | some t =>
      have hcond := u2 t hcur
      show List.map Prod.fst
          (if t ≠ "" ∧ cf.curBlock ≠ [] then cf.commits ++ [(t, cf.curBlock)]
            else cf.commits) = openedTokens cmds
      rw [if_pos hcond, List.map_append, ← u7, hcur]
      simp
  · show withoutMarkers ((allCommits cmds).map Prod.snd).flatten = _
    unfold allCommits
    rw [← hcf, List.map_append, List.flatten_append, withoutMarkers_append,
      indivPairs_values]
    have hind : withoutMarkers cf.indiv = cf.indiv := withoutMarkers_id u6
    have hrefindiv : cf.indiv = (refRun cmds).indiv := u5
    rw [hind, hrefindiv]
    congr 1
    cases hcur : cf.cur with
    | none =>
      have hcb : cf.curBlock = [] := u3 hcur
      have := u4
      rw [hcb, List.append_nil] at this
      simpa using this
    | some t =>
      have hcond := u2 t hcur
      show withoutMarkers ((List.map Prod.snd
          (if t ≠ "" ∧ cf.curBlock ≠ [] then cf.commits ++ [(t, cf.curBlock)]
            else cf.commits)).flatten) = (refRun cmds).grouped
      rw [if_pos hcond, List.map_append, List.flatten_append]
      simpa using u4

theorem allCommits_keys_nodup (cmds : List String)
    (Hnodup : (openedTokens cmds).Nodup)
    (Hind : ∀ t ∈ openedTokens cmds, pyStartsWith t "individual_" = false) :
    (((allCommits cmds).map Prod.fst).Nodup) := by
  obtain ⟨hkeys, _⟩ := commit_run_facts cmds
  rw [hkeys, List.nodup_append]
  refine ⟨Hnodup, indivPairs_keys_nodup _ 0, ?_⟩
  intro k hk1 hk2
  obtain ⟨j, _, hj⟩ := indivPairs_keys_mem _ 0 k hk2
  have hstart := indivKey_startsWith j
  rw [← hj, Hind k hk1] at hstart
  cases hstart

theorem group_eq_allCommits (cmds : List String)
    (Hnodup : (openedTokens cmds).Nodup)
    (Hind : ∀ t ∈ openedTokens cmds, pyStartsWith t "individual_" = false) :
    group_interface_commands cmds = allCommits cmds := by
  rw [group_eq_allCommits_fold]
  have h := foldl_dictInsert_eq_self (allCommits cmds) []
  simpa using h (by simpa using allCommits_keys_nodup cmds Hnodup Hind)

/-- Claim C1: the concatenation of the grouper's block command lists, in
emission order and with the synthetic configuration-entry markers removed,
does NOT always equal the original input sequence: a read-only command that
precedes an interface block is emitted after it. -/
theorem grouper_concat_counterexample :
    withoutMarkers (concatBlocks (group_interface_commands
        ["show version", "interface ethernet1/1", "no shutdown"])) ≠
      ["show version", "interface ethernet1/1", "no shutdown"] := by decide

/-- Claim C1 (amended): for inputs whose opened interface tokens are pairwise
distinct and not shaped like individual-block keys, the concatenation of the
block command lists in emission order, minus the configuration-entry
markers, equals the grouped configuration commands in input order followed
by the individual commands in input order; together the two classes are a
permutation of the input minus its bare configuration-entry commands, and
each class preserves input order.  Individual commands are thus emitted
after all named blocks, not at their input positions. -/
theorem grouper_concat_amended (cmds : List String)
    (Hnodup : (openedTokens cmds).Nodup)
    (Hind : ∀ t ∈ openedTokens cmds, pyStartsWith t "individual_" = false) :
    withoutMarkers (concatBlocks (group_interface_commands cmds)) =
      (refRun cmds).grouped ++ (refRun cmds).indiv ∧
    ((refRun cmds).grouped ++ (refRun cmds).indiv).Perm (cmds.filter nonDropped) ∧
    (refRun cmds).grouped.Sublist cmds ∧ (refRun cmds).indiv.Sublist cmds := by
  refine ⟨?_, ?_, ?_, ?_⟩
  · rw [group_eq_allCommits cmds Hnodup Hind]
    exact (commit_run_facts cmds).2
  · have h := refRun_perm cmds ⟨none, [], []⟩
    simpa [refRun] using h
  · obtain ⟨dg, di, e1, _, s1, _⟩ := refRun_sublists cmds ⟨none, [], []⟩
    show (cmds.foldl refStep ⟨none, [], []⟩).grouped.Sublist cmds
    rw [e1]
    simpa using s1
  · obtain ⟨dg, di, _, e2, _, s2⟩ := refRun_sublists cmds ⟨none, [], []⟩
    show (cmds.foldl refStep ⟨none, [], []⟩).indiv.Sublist cmds
    rw [e2]
    simpa using s2

/-- Witness for the amended claim C1 at a concrete input. -/
theorem grouper_concat_amended_witness :
    ((openedTokens ["show version", "interface ethernet1/1", "no shutdown"]).Nodup ∧
      ∀ t ∈ openedTokens ["show version", "interface ethernet1/1", "no shutdown"],
        pyStartsWith t "individual_" = false) ∧
    (withoutMarkers (concatBlocks (group_interface_commands
        ["show version", "interface ethernet1/1", "no shutdown"])) =
      (refRun ["show version", "interface ethernet1/1", "no shutdown"]).grouped ++
        (refRun ["show version", "interface ethernet1/1", "no shutdown"]).indiv ∧
    ((refRun ["show version", "interface ethernet1/1", "no shutdown"]).grouped ++
        (refRun ["show version", "interface ethernet1/1", "no shutdown"]).indiv).Perm
      (["show version", "interface ethernet1/1", "no shutdown"].filter nonDropped) ∧
    (refRun ["show version", "interface ethernet1/1", "no shutdown"]).grouped.Sublist
      ["show version", "interface ethernet1/1", "no shutdown"] ∧
    (refRun ["show version", "interface ethernet1/1", "no shutdown"]).indiv.Sublist
      ["show version", "interface ethernet1/1", "no shutdown"]) :=
  ⟨⟨by decide, by decide⟩,
    grouper_concat_amended ["show version", "interface ethernet1/1", "no shutdown"]
      (by decide) (by decide)⟩

/-- Claim C9: when the same interface token opens a named block twice, the
grouper's output mapping holds exactly one block under that token, whose
value is the block of the later (last-committed) occurrence; the earlier
occurrence's commands are not under that key.  The hypothesis states that
`B` is the value of the last dict write to token `t` during the run. -/
theorem grouper_duplicate_token (cmds : List String) (t : String) (B : List String)
    (h : lastWrite (allCommits cmds) t = some B) :
    (group_interface_commands cmds).countP (fun p => p.1 == t) = 1 ∧
    lookupBlocks (group_interface_commands cmds) t = some B ∧
    ∀ v, (t, v) ∈ group_interface_commands cmds → v = B := by
  have hlookup : lookupBlocks (group_interface_commands cmds) t = some B := by
    rw [group_eq_allCommits_fold, lookupBlocks_foldl_dictInsert, h]
    rfl
  have hnodup : ((group_interface_commands cmds).map Prod.fst).Nodup := by
    rw [group_eq_allCommits_fold]
    exact keys_foldl_dictInsert_nodup _ [] (by simp)
  have hmem : t ∈ (group_interface_commands cmds).map Prod.fst := by
    unfold lookupBlocks at hlookup
    cases hf : (group_interface_commands cmds).find? (fun p => decide (p.1 = t)) with
    | none => rw [hf] at hlookup; cases hlookup
    | some p =>
      have hp : p.1 = t := by
        have := List.find?_some hf
        simpa using this
      exact List.mem_map.mpr ⟨p, List.mem_of_find?_eq_some hf, hp⟩
  refine ⟨?_, hlookup, ?_⟩
  · have hcount : ((group_interface_commands cmds).map Prod.fst).count t = 1 :=
      List.count_eq_one_of_mem hnodup hmem
    rw [List.count, List.countP_map] at hcount
    rw [← hcount]
    rfl
  · intro v hv
    have := lookup_of_mem_nodup _ t v hv hnodup
    rw [hlookup] at this
    injection this with h'
    exact h'.symm

/-- Witness for claim C9: the token `ethernet1/1` is opened twice; the
mapping keeps exactly one entry, holding the later block. -/
theorem grouper_duplicate_token_witness :
    lastWrite (allCommits ["interface ethernet1/1", "description A", "vlan 5",
        "interface ethernet1/1", "shutdown"]) "ethernet1/1" =
      some ["configure terminal", "interface ethernet1/1", "shutdown"] ∧
    ((group_interface_commands ["interface ethernet1/1", "description A", "vlan 5",
        "interface ethernet1/1", "shutdown"]).countP (fun p => p.1 == "ethernet1/1") = 1 ∧
    lookupBlocks (group_interface_commands ["interface ethernet1/1", "description A",
        "vlan 5", "interface ethernet1/1", "shutdown"]) "ethernet1/1" =
      some ["configure terminal", "interface ethernet1/1", "shutdown"] ∧
    ∀ v, ("ethernet1/1", v) ∈ group_interface_commands ["interface ethernet1/1",
        "description A", "vlan 5", "interface ethernet1/1", "shutdown"] →
      v = ["configure terminal", "interface ethernet1/1", "shutdown"]) :=
  ⟨by decide,
    grouper_duplicate_token _ "ethernet1/1"
      ["configure terminal", "interface ethernet1/1", "shutdown"] (by decide)⟩

/-! ### The Stream Framer: the chunk test equals the buffer test -/

theorem lastNonWs_foldl (l : List Char) :
    ∀ init : Option Char,
      l.foldl (fun acc c => if c.isWhitespace then acc else some c) init =
        (lastNonWs l).or init := by
  induction l with
  | nil => intro init; simp [lastNonWs]
  | cons c rest ih =>
    intro init
    have hcons : lastNonWs (c :: rest) =
        (lastNonWs rest).or (if c.isWhitespace then none else some c) := by
      show List.foldl _ _ (c :: rest) = _
      rw [List.foldl_cons, ih]
    rw [List.foldl_cons, ih, hcons]
    cases hlw : lastNonWs rest <;> by_cases hw : c.isWhitespace <;> simp [hw, Option.or]

theorem lastNonWs_append (a b : List Char) :
    lastNonWs (a ++ b) = (lastNonWs b).or (lastNonWs a) := by
  show List.foldl _ _ (a ++ b) = _
  rw [List.foldl_append, lastNonWs_foldl]
  rfl

theorem lastNonWs_concat (l : List Char) (c : Char) :
    lastNonWs (l ++ [c]) = if c.isWhitespace then lastNonWs l else some c := by
  rw [lastNonWs_append]
  by_cases hw : c.isWhitespace <;> simp [hw, lastNonWs, Option.or]

theorem head_dropWhile_reverse (l : List Char) :
    ((l.reverse.dropWhile Char.isWhitespace).head?) = lastNonWs l := by
  induction l using List.reverseRecOn with
  | nil => simp [lastNonWs]
  | append_singleton l c ih =>
    rw [List.reverse_append, lastNonWs_concat]
    by_cases hw : c.isWhitespace
    · simp [hw, List.dropWhile_cons, ih]
    · simp [hw, List.dropWhile_cons]

theorem dropWhile_double_head (l : List Char) :
    ((List.dropWhile Char.isWhitespace
        ((List.dropWhile Char.isWhitespace l).reverse)).head?) =
      ((List.dropWhile Char.isWhitespace l.reverse).head?) := by
  induction l with
  | nil => rfl
  | cons c rest ih =>
    by_cases hw : c.isWhitespace
    · rw [List.dropWhile_cons_of_pos hw, ih, List.reverse_cons, List.dropWhile_append]
      by_cases he : (List.dropWhile Char.isWhitespace rest.reverse).isEmpty = true
      · rw [if_pos he]
        rw [List.isEmpty_iff] at he
        rw [he]
        simp [List.dropWhile_cons, hw]
      · rw [if_neg he]
        rw [List.head?_append]
        cases hh : (List.dropWhile Char.isWhitespace rest.reverse).head? with
        | none =>
          rw [List.head?_eq_none_iff] at hh
          rw [hh] at he
          simp at he
        | some x => simp
    · rw [List.dropWhile_cons_of_neg hw]

theorem strip_reverse_head (l : List Char) :
    ((stripL l).reverse).head? = lastNonWs l := by
  unfold stripL
  rw [List.reverse_reverse, dropWhile_double_head, head_dropWhile_reverse]

theorem listPre_singleton (x : Char) (l : List Char) :
    listPre [x] l = match l with
      | [] => false
      | c :: _ => x == c := by
  cases l <;> simp [listPre]

theorem promptBuffer_char (s : String) :
    promptBuffer s = (match lastNonWs s.data with
      | some c => ('>' == c || '#' == c)
      | none => false) := by
  unfold promptBuffer pyEndsWith pyStrip
  rw [← strip_reverse_head s.data]
  cases hR : ((stripL s.data).reverse) with
  | nil => simp [listPre_singleton, hR]
  | cons c cs => simp [listPre_singleton, hR]

theorem promptDetected_eq_promptBuffer (s : String) : promptDetected s = promptBuffer s := rfl

theorem promptBuffer_append_some {b c : String} {ch : Char}
    (h : lastNonWs c.data = some ch) :
    promptBuffer (b ++ c) = promptDetected c := by
  rw [promptDetected_eq_promptBuffer, promptBuffer_char, promptBuffer_char,
    string_data_append, lastNonWs_append, h]
  rfl

theorem promptBuffer_append_none {b c : String} (h : lastNonWs c.data = none) :
    promptBuffer (b ++ c) = promptBuffer b := by
  rw [promptBuffer_char, promptBuffer_char, string_data_append, lastNonWs_append, h]
  rfl

/-- Claim C3: the accumulation loop stops polling early exactly when the
trailing non-whitespace of the whole accumulated buffer matches a device
prompt: although line 122 tests only the most recent chunk, the loop
maintains the invariant that the buffer never ends (modulo whitespace) in a
prompt character without having broken, so the chunk test and the
whole-buffer test coincide on every run. -/
theorem framer_prompt_completion (script : List String) (buffer : String) (tc : Nat)
    (h : promptBuffer buffer = false) :
    (frameLoop script buffer tc).early =
      promptBuffer (frameLoop script buffer tc).buffer := by
  induction script generalizing buffer tc with
  | nil => exact h.symm
  | cons chunk rest ih =>
    show (frameLoop (chunk :: rest) buffer tc).early = _
    unfold frameLoop
    by_cases htc : 10 ≤ tc
    · rw [if_pos htc]; exact h.symm
    · rw [if_neg htc]
      by_cases hne : chunk ≠ ""
      · rw [if_pos hne]
        by_cases hp : promptDetected chunk = true
        · rw [if_pos hp]
          cases hlnw : lastNonWs chunk.data with
          | none =>
            rw [promptDetected_eq_promptBuffer, promptBuffer_char, hlnw] at hp
            cases hp
          | some ch =>
            have hb := promptBuffer_append_some (b := buffer) hlnw
            rw [hp] at hb
            exact hb.symm
        · have hbuf : promptBuffer (buffer ++ chunk) = false := by
            cases hlnw : lastNonWs chunk.data with
            | none => rw [promptBuffer_append_none hlnw]; exact h
            | some ch =>
              rw [promptBuffer_append_some (b := buffer) hlnw]
              simpa using hp
          rw [if_neg hp]
          by_cases hm : hasMoreMarker chunk = true
          · rw [if_pos hm]
            exact ih (buffer ++ chunk) 0 hbuf
          · rw [if_neg hm]
            exact ih (buffer ++ chunk) 0 hbuf
      · rw [if_neg hne]
        exact ih buffer (tc + 1) h

/-- Witness for claim C3 at a concrete receive script. -/
theorem framer_prompt_completion_witness :
    promptBuffer "" = false ∧
      (frameLoop ["nx-os#"] "" 0).early =
        promptBuffer (frameLoop ["nx-os#"] "" 0).buffer :=
  ⟨by decide, framer_prompt_completion ["nx-os#"] "" 0 (by decide)⟩

/-! ### The Syntax Normalizer: idempotence fails in general -/

theorem listPre_of_leading : ∀ {p l : List Char}, List.IsPrefix p l → listPre p l = true := by
  intro p
  induction p with
  | nil => intro l _; rfl
  | cons a as ih =>
    intro l h
    obtain ⟨t, ht⟩ := h
    rw [← ht]
    show (a == a && listPre as (as ++ t)) = true
    simp only [beq_self_eq_true, Bool.true_and]
    exact ih ⟨t, rfl⟩

theorem listSub_of_infix : ∀ {p l : List Char}, List.IsInfix p l → listSub p l = true := by
  intro p l
  induction l with
  | nil =>
    intro h
    rw [List.infix_nil] at h
    subst h
    rfl
  | cons c rest ih =>
    intro h
    obtain ⟨s, t, hst⟩ := h
    cases s with
    | nil =>
      have hpre : List.IsPrefix p (c :: rest) := ⟨t, by simpa using hst⟩
      show (listPre p (c :: rest) || listSub p rest) = true
      rw [listPre_of_leading hpre, Bool.true_or]
    | cons d s' =>
      have hinf : List.IsInfix p rest := ⟨s', t, by
        have := hst
        simp only [List.cons_append, List.cons.injEq] at this
        exact this.2⟩
      show (listPre p (c :: rest) || listSub p rest) = true
      rw [ih hinf, Bool.or_true]

theorem stripL_infix (l : List Char) : List.IsInfix (stripL l) l := by
  have h1 : List.IsSuffix (List.dropWhile Char.isWhitespace l) l := List.dropWhile_suffix _
  have h2 : List.IsPrefix (stripL l) (List.dropWhile Char.isWhitespace l) := by
    unfold stripL
    rw [← List.reverse_suffix]
    rw [List.reverse_reverse]
    exact List.dropWhile_suffix _
  exact h2.isInfix.trans h1.isInfix

theorem pyContains_of_lowerStrip {c X : String} (h : lowerStrip c = X) :
    pyContains (pyLower c) X = true := by
  unfold pyContains
  apply listSub_of_infix
  have hdata : X.data = stripL (pyLower c).data := by
    rw [← h]; rfl
  rw [hdata]
  exact stripL_infix _

theorem noTrigger_fixpoint {v : String} (h : noTrigger v = true) : validateOne v = v := by
  unfold noTrigger at h
  rw [Bool.and_eq_true, Bool.and_eq_true] at h
  obtain ⟨⟨hsb, hall⟩, hfp⟩ := h
  rw [Bool.not_eq_true'] at hsb hfp
  unfold validateOne
  rw [if_neg (by rw [hsb]; exact Bool.false_ne_true)]
  have hfind : ios_to_nexus.find? (fun p => pyContains (pyLower v) p.1) = none := by
    rw [List.find?_eq_none]
    intro p hp
    have := List.all_eq_true.mp hall p hp
    simpa using this
  rw [hfind]
  unfold finalPass
  rw [if_neg (by rw [hfp]; exact Bool.false_ne_true)]

/-- Claim C4: the Normalizer is NOT idempotent: a command containing several
correction phrases is rewritten again on the second pass. -/
theorem normalizer_idempotent_counterexample :
    validate_nexus_commands (validate_nexus_commands ["show processes show bgp summary"]) ≠
      validate_nexus_commands ["show processes show bgp summary"] := by decide

/-- Claim C4 (amended): the Normalizer is idempotent on every strict-blocked
command and on every command whose normalized form triggers no further
correction (not strict-blocked, containing no general-correction phrase and
no interface shorthand); a command containing several correction phrases can
keep changing, as the counterexample shows. -/
theorem normalizer_idempotent_amended (c : String)
    (h : strictBlocked c = true ∨ noTrigger (validateOne c) = true) :
    validate_nexus_commands (validate_nexus_commands [c]) = validate_nexus_commands [c] := by
  unfold validate_nexus_commands
  simp only [List.map_cons, List.map_nil]
  rcases h with h | h
  · have hone : ∀ K : String,
        strictReplacement c = K → validateOne K = K → finalPass K = K →
        validateOne (validateOne c) = validateOne c := by
      intro K hrep hKfix hKfp
      have hvc : validateOne c = K := by
        unfold validateOne
        rw [if_pos h, hrep, hKfp]
      rw [hvc, hKfix]
    by_cases q1 : pyContains (pyLower c) "show bgp neighbors" = true
    · have hrep : strictReplacement c = "show bgp l2vpn evpn neighbors" := by
        unfold strictReplacement; rw [if_pos q1]
      rw [hone _ hrep (by decide) (by decide)]
    · by_cases q2 : pyContains (pyLower c) "show bgp summary" = true
      · have hrep : strictReplacement c = "show bgp l2vpn evpn summary" := by
          unfold strictReplacement; rw [if_neg q1, if_pos q2]
        rw [hone _ hrep (by decide) (by decide)]
      · by_cases q3 : pyContains (pyLower c) "show ip bgp" = true
        · have hrep : strictReplacement c = "show bgp ipv4 unicast summary" := by
            unfold strictReplacement; rw [if_neg q1, if_neg q2, if_pos q3]
          rw [hone _ hrep (by decide) (by decide)]
        · exfalso
          unfold strictBlocked at h
          rw [Bool.or_eq_true, Bool.or_eq_true] at h
          rcases h with (h | h) | h
          · exact q2 (pyContains_of_lowerStrip (by simpa using h))
          · exact q1 (pyContains_of_lowerStrip (by simpa using h))
          · exact q3 (pyContains_of_lowerStrip (by simpa using h))
  · rw [noTrigger_fixpoint h]

/-- Witness for the amended claim C4: `show processes` corrects to
`show system resources`, which triggers nothing further, so a second pass
leaves it unchanged. -/
theorem normalizer_idempotent_amended_witness :
    (strictBlocked "show processes" = true ∨ noTrigger (validateOne "show processes") = true) ∧
      validate_nexus_commands (validate_nexus_commands ["show processes"]) =
        validate_nexus_commands ["show processes"] :=
  ⟨Or.inr (by decide), normalizer_idempotent_amended "show processes" (Or.inr (by decide))⟩

/-- Claim C5: a general-table correction does NOT preserve the character
case of the text outside the replaced phrase: the replacement is applied to
the lowercased command, so the untouched suffix `EXTRA` comes out
lowercased. -/
theorem normalizer_correction_counterexample :
    validate_nexus_commands ["show processes EXTRA"] = ["show system resources extra"] ∧
      validate_nexus_commands ["show processes EXTRA"] ≠ ["show system resources EXTRA"] := by
  constructor
  · decide
  · decide

/-- Claim C5 (amended): for a command that is not strict-blocked and matches
a general-correction entry, the first matching entry (in table order) is
applied by `str.replace` to the LOWERCASED command text, and the interface-
shorthand pass then runs on the result; the rest of the lowercased text is
preserved, but the original character case outside the replaced phrase is
not. -/
theorem normalizer_correction_amended (c ios nexus : String)
    (hnb : strictBlocked c = false)
    (hfind : ios_to_nexus.find? (fun p => pyContains (pyLower c) p.1) = some (ios, nexus)) :
    validate_nexus_commands [c] = [finalPass (pyReplace (pyLower c) ios nexus)] := by
  unfold validate_nexus_commands
  simp only [List.map_cons, List.map_nil]
  unfold validateOne
  rw [if_neg (by rw [hnb]; exact Bool.false_ne_true), hfind]

/-- Witness for the amended claim C5 at the counterexample's input. -/
theorem normalizer_correction_amended_witness :
    (strictBlocked "show processes EXTRA" = false ∧
      ios_to_nexus.find?
          (fun p => pyContains (pyLower "show processes EXTRA") p.1) =
        some ("show processes", "show system resources")) ∧
      validate_nexus_commands ["show processes EXTRA"] =
        [finalPass (pyReplace (pyLower "show processes EXTRA")
          "show processes" "show system resources")] :=
  ⟨⟨by decide, by decide⟩,
    normalizer_correction_amended "show processes EXTRA" "show processes"
      "show system resources" (by decide) (by decide)⟩

/-! ### Connection failure, retry recording, pagination sends -/

/-- Claim C7: when the SSH connection cannot be established the orchestrator
returns only the single structured error entry for the device, executes
nothing, appends no history record and leaves the context untouched. -/
theorem connect_error_no_partial_results (env : Env) (commands : List String)
    (history₀ : List HistoryEntry) (ctx₀ : Context)
    (h : env.connectOk = false) :
    (execute_commands_on_switch env commands history₀ ctx₀).results =
        [("error", "Failed to connect to " ++ env.hostname)] ∧
      (execute_commands_on_switch env commands history₀ ctx₀).history = history₀ ∧
      (execute_commands_on_switch env commands history₀ ctx₀).ctx = ctx₀ ∧
      (execute_commands_on_switch env commands history₀ ctx₀).events = [] := by
  unfold execute_commands_on_switch
  rw [if_neg (by rw [h]; exact Bool.false_ne_true)]
  exact ⟨rfl, rfl, rfl, rfl⟩

/-- Witness for claim C7 with a concrete failing environment. -/
theorem connect_error_no_partial_results_witness :
    (Env.mk false (fun _ => "") (fun _ => "") false (fun _ => false) "sw1" 0).connectOk
        = false ∧
      ((execute_commands_on_switch
          (Env.mk false (fun _ => "") (fun _ => "") false (fun _ => false) "sw1" 0)
          ["show version"] [] ⟨none, none, []⟩).results =
        [("error", "Failed to connect to sw1")] ∧
      (execute_commands_on_switch
          (Env.mk false (fun _ => "") (fun _ => "") false (fun _ => false) "sw1" 0)
          ["show version"] [] ⟨none, none, []⟩).history = [] ∧
      (execute_commands_on_switch
          (Env.mk false (fun _ => "") (fun _ => "") false (fun _ => false) "sw1" 0)
          ["show version"] [] ⟨none, none, []⟩).ctx = ⟨none, none, []⟩ ∧
      (execute_commands_on_switch
          (Env.mk false (fun _ => "") (fun _ => "") false (fun _ => false) "sw1" 0)
          ["show version"] [] ⟨none, none, []⟩).events = []) :=
  ⟨rfl, connect_error_no_partial_results _ ["show version"] [] ⟨none, none, []⟩ rfl⟩

theorem mem_dictInsert_ne {α : Type} (m : List (String × α)) (k k' : String) (v w : α)
    (hne : k ≠ k') : ((k, v) ∈ dictInsert m k' w) ↔ (k, v) ∈ m := by
  induction m with
  | nil => simp [dictInsert, hne]
  | cons p rest ih =>
    by_cases hp : p.1 = k'
    · obtain ⟨pk, pv⟩ := p
      simp only at hp
      subst hp
      simp [dictInsert, List.mem_cons, hne]
    · simp [dictInsert, hp, List.mem_cons, ih]

/-- Claim C6: the failed original CAN remain the recorded key, because the
suggested correction may equal the failed command itself: a failing
`show bgp l2vpn evpn summary` suggests `show bgp l2vpn evpn summary`. -/
theorem retry_recording_counterexample :
    is_command_failure "% Invalid command" = true ∧
    suggest_command_correction "show bgp l2vpn evpn summary" "% Invalid command" =
      some "show bgp l2vpn evpn summary" ∧
    (execute_commands_on_switch
        ⟨true, fun _ => "% Invalid command", fun _ => "", true, fun _ => true, "sw1", 0⟩
        ["show bgp l2vpn evpn summary"] [] ⟨none, none, []⟩).results =
      [("show bgp l2vpn evpn summary", "% Invalid command")] ∧
    (execute_commands_on_switch
        ⟨true, fun _ => "% Invalid command", fun _ => "", true, fun _ => true, "sw1", 0⟩
        ["show bgp l2vpn evpn summary"] [] ⟨none, none, []⟩).events =
      [ExecEvent.single "show bgp l2vpn evpn summary",
        ExecEvent.single "show bgp l2vpn evpn summary"] := by
  refine ⟨by decide, by decide, ?_, ?_⟩ <;> decide

/-- Claim C6 (amended): when an individual block's command fails, a
suggestion exists, and the policy gate approves the retry, the corrected
command is executed exactly once more (two transport events in total), its
output is recorded as-is under the corrected command's key without
re-classification and without any further retry, no history record or
context update happens, and — provided the suggestion differs from the
original and the original is not already a key — the original failed
command does not appear as a key. -/
theorem retry_recording_amended (env : Env) (st : RunState) (name c s : String)
    (hname : pyStartsWith name "individual_" = true)
    (hfail : is_command_failure (env.exec c) = true)
    (hsugg : suggest_command_correction c (env.exec c) = some s)
    (happr : (env.show_raw || env.confirm s) = true)
    (hne : c ≠ s)
    (hnotin : ∀ v, (c, v) ∉ st.results) :
    (execBlockStep env st (name, [c])).results = dictInsert st.results s (env.exec s) ∧
    (∀ v, (c, v) ∉ (execBlockStep env st (name, [c])).results) ∧
    (execBlockStep env st (name, [c])).events =
      st.events ++ [ExecEvent.single c, ExecEvent.single s] ∧
    (execBlockStep env st (name, [c])).history = st.history ∧
    (execBlockStep env st (name, [c])).ctx = st.ctx := by
  have hstep : execBlockStep env st (name, [c]) =
      { st with results := dictInsert st.results s (env.exec s),
                events := (st.events ++ [ExecEvent.single c]) ++ [ExecEvent.single s] } := by
    unfold execBlockStep
    rw [Bool.or_eq_true] at happr
    simp only [List.headD_cons]
    rw [if_pos hname, if_pos hfail, hsugg]
    rcases happr with hsr | hcf
    · simp only [hsr, if_true]
    · by_cases hsr : env.show_raw = true
      · simp only [hsr, if_true]
      · simp only [hsr, Bool.false_eq_true, if_false, hcf, if_true]
  rw [hstep]
  refine ⟨rfl, ?_, by simp, rfl, rfl⟩
  intro v hv
  rw [mem_dictInsert_ne st.results c s v (env.exec s) hne] at hv
  exact hnotin v hv

/-- Witness for the amended claim C6. -/
theorem retry_recording_amended_witness :
    (pyStartsWith "individual_0" "individual_" = true ∧
      is_command_failure
        ((Env.mk true (fun _ => "% Invalid command") (fun _ => "") true (fun _ => true)
          "sw1" 0).exec "show bgp") = true ∧
      suggest_command_correction "show bgp"
        ((Env.mk true (fun _ => "% Invalid command") (fun _ => "") true (fun _ => true)
          "sw1" 0).exec "show bgp") = some "show bgp l2vpn evpn summary" ∧
      ("show bgp" : String) ≠ "show bgp l2vpn evpn summary") ∧
    ((execBlockStep
        (Env.mk true (fun _ => "% Invalid command") (fun _ => "") true (fun _ => true)
          "sw1" 0) ⟨[], [], ⟨none, none, []⟩, []⟩ ("individual_0", ["show bgp"])).results =
      dictInsert [] "show bgp l2vpn evpn summary"
        ((Env.mk true (fun _ => "% Invalid command") (fun _ => "") true (fun _ => true)
          "sw1" 0).exec "show bgp l2vpn evpn summary") ∧
    (∀ v, ("show bgp", v) ∉ (execBlockStep
        (Env.mk true (fun _ => "% Invalid command") (fun _ => "") true (fun _ => true)
          "sw1" 0) ⟨[], [], ⟨none, none, []⟩, []⟩ ("individual_0", ["show bgp"])).results) ∧
    (execBlockStep
        (Env.mk true (fun _ => "% Invalid command") (fun _ => "") true (fun _ => true)
          "sw1" 0) ⟨[], [], ⟨none, none, []⟩, []⟩ ("individual_0", ["show bgp"])).events =
      [] ++ [ExecEvent.single "show bgp", ExecEvent.single "show bgp l2vpn evpn summary"] ∧
    (execBlockStep
        (Env.mk true (fun _ => "% Invalid command") (fun _ => "") true (fun _ => true)
          "sw1" 0) ⟨[], [], ⟨none, none, []⟩, []⟩ ("individual_0", ["show bgp"])).history = [] ∧
    (execBlockStep
        (Env.mk true (fun _ => "% Invalid command") (fun _ => "") true (fun _ => true)
          "sw1" 0) ⟨[], [], ⟨none, none, []⟩, []⟩ ("individual_0", ["show bgp"])).ctx =
      ⟨none, none, []⟩) :=
  ⟨⟨by decide, by decide, by decide, by decide⟩,
    retry_recording_amended _ _ "individual_0" "show bgp" "show bgp l2vpn evpn summary"
      (by decide) (by decide) (by decide) (by decide) (by decide)
      (by intro v hv; cases hv)⟩

theorem frameLoop_sends_spaces :
    ∀ (script : List String) (buffer : String) (tc : Nat),
      ∀ x ∈ (frameLoop script buffer tc).sends, x = " " := by
  intro script
  induction script with
  | nil => intro buffer tc x hx; cases hx
  | cons chunk rest ih =>
    intro buffer tc x hx
    unfold frameLoop at hx
    by_cases htc : 10 ≤ tc
    · rw [if_pos htc] at hx; cases hx
    · rw [if_neg htc] at hx
      by_cases hne : chunk ≠ ""
      · rw [if_pos hne] at hx
        by_cases hp : promptDetected chunk = true
        · rw [if_pos hp] at hx; cases hx
        · rw [if_neg hp] at hx
          by_cases hm : hasMoreMarker chunk = true
          · rw [if_pos hm] at hx
            rcases List.mem_cons.mp hx with rfl | hx
            · rfl
            · exact ih _ 0 x hx
          · rw [if_neg hm] at hx
            exact ih _ 0 x hx
      · rw [if_neg hne] at hx
        exact ih _ (tc + 1) x hx

theorem string_append_right_inj {a b t : String} (h : a ++ t = b ++ t) : a = b := by
  have hd := congrArg String.data h
  rw [string_data_append, string_data_append] at hd
  have hdd := List.append_cancel_right hd
  cases a
  cases b
  exact congrArg String.mk (by simpa using hdd)

theorem count_pagination_execute_command (c : String) (script : List String) :
    ((execute_command_model c script).2.count "terminal length 0\n") =
      1 + (if c = "terminal length 0" then 1 else 0) := by
  unfold execute_command_model
  simp only [List.count_append, List.count_cons, List.count_nil]
  have hspaces : (frameLoop script "" 0).sends.count "terminal length 0\n" = 0 := by
    rw [List.count_eq_zero]
    intro hmem
    have hsp := frameLoop_sends_spaces script "" 0 _ hmem
    exact absurd hsp (by decide)
  have hcmd : ((c ++ "\n" : String) == ("terminal length 0\n" : String)) =
      (c == "terminal length 0") := by
    by_cases he : c = "terminal length 0"
    · subst he; rfl
    · have hne : ¬ (c ++ "\n" : String) = "terminal length 0\n" := by
        intro hx
        exact he (string_append_right_inj (t := "\n") (by simpa using hx))
      simp [he, hne]
  by_cases hcfg : is_config_command c = true <;>
    simp [hcfg, hspaces, hcmd, List.count_cons, List.count_nil, List.count_append]

/-- Claim C8: the pagination-disable command is NOT sent once per session:
two commands executed over the same session send it twice. -/
theorem pagination_once_counterexample :
    1 < (sessionSends ["show version", "show clock"] (fun _ => ["nx#"])).count
        "terminal length 0\n" := by decide

/-- Claim C8 (amended): `terminal length 0` is transmitted once per
`execute_command` invocation, i.e. once per executed command — a session
executing the command list sends it as many times as there are commands
(plus once more for any command that is itself the pagination command),
never just once per session. -/
theorem pagination_per_invocation (cmds : List String) (scriptOf : String → List String) :
    (sessionSends cmds scriptOf).count "terminal length 0\n" =
      cmds.length + cmds.count "terminal length 0" := by
  induction cmds with
  | nil => rfl
  | cons c rest ih =>
    unfold sessionSends at ih ⊢
    simp only [List.map_cons, List.flatten_cons, List.count_append, ih,
      count_pagination_execute_command, List.length_cons, List.count_cons]
    by_cases he : c = "terminal length 0" <;> simp [he] <;> omega

/-! ### One write, one optional history record per executed unit -/

theorem lookupD_dictInsert_self (m : List (String × String)) (k v d : String) :
    lookupD (dictInsert m k v) k d = v := by
  induction m with
  | nil => simp [dictInsert, lookupD, List.find?_cons]
  | cons p rest ih =>
    by_cases hp : p.1 = k
    · simp [dictInsert, hp, lookupD, List.find?_cons]
    · simp only [dictInsert, if_neg hp]
      simp only [lookupD, List.find?_cons, hp, decide_eq_true_eq, if_neg] at ih ⊢
      simpa [hp] using ih

theorem recordIndiv_eq (env : Env) (st : RunState) (bcs : List String) (out : String) :
    recordIndiv env st bcs (bcs.headD "") out =
      { results := dictInsert st.results (bcs.headD "") out,
        history := st.history ++
          [⟨env.now, env.hostname, bcs.headD "", truncate500 out⟩],
        ctx := ⟨some (bcs.headD ""), some out, st.ctx.session_notes⟩,
        events := st.events } := by
  unfold recordIndiv histAppend
  simp only [lookupD_dictInsert_self, Option.getD_some]

theorem recordCmd_eq (env : Env) (st : RunState) (c out : String) :
    recordCmd env st c out =
      { results := dictInsert st.results c out,
        history := st.history ++ [⟨env.now, env.hostname, c, truncate500 out⟩],
        ctx := ⟨some c, some out, st.ctx.session_notes⟩,
        events := st.events } := by
  unfold recordCmd histAppend
  simp only [Option.getD_some]

theorem execCmdStep_characterization (env : Env) (st : RunState) (c : String) :
    execCmdStep env st c =
      { results := dictInsert st.results (cmdWrite env c).1 (cmdWrite env c).2,
        history := if cmdRetried env c then st.history else st.history ++ [cmdHist env c],
        ctx := if cmdRetried env c then st.ctx else mkCtxC env st.ctx c,
        events := st.events ++ cmdEvents env c } := by
  by_cases hfail : is_command_failure (env.exec c) = true
  · cases hsugg : suggest_command_correction c (env.exec c) with
    | some s =>
      by_cases happr : (env.show_raw || env.confirm s) = true
      · have hret : cmdRetried env c = true := by
          simp [cmdRetried, hfail, hsugg, happr]
        have hev : cmdEvents env c = [ExecEvent.single c, ExecEvent.single s] := by
          simp [cmdEvents, hret, hsugg]
        have hwr : cmdWrite env c = (s, env.exec s) := by
          simp [cmdWrite, hfail, hsugg, happr]
        have hstep : execCmdStep env st c =
            { st with results := dictInsert st.results s (env.exec s),
                      events := (st.events ++ [ExecEvent.single c]) ++ [ExecEvent.single s] } := by
          unfold execCmdStep
          rw [if_pos hfail, hsugg]
          rw [Bool.or_eq_true] at happr
          rcases happr with hsr | hcf
          · simp only [hsr, if_true]
          · by_cases hsr : env.show_raw = true
            · simp only [hsr, if_true]
            · simp only [hsr, Bool.false_eq_true, if_false, hcf, if_true]
        rw [hstep, hwr]
        simp [hret, hev]
      · have hna : env.show_raw = false ∧ env.confirm s = false := by
          rw [Bool.or_eq_true] at happr
          push_neg at happr
          exact ⟨Bool.eq_false_iff.mpr happr.1, Bool.eq_false_iff.mpr happr.2⟩
        have hret : cmdRetried env c = false := by
          simp [cmdRetried, hfail, hsugg, hna.1, hna.2]
        have hwr : cmdWrite env c = (c, env.exec c) := by
          simp [cmdWrite, hfail, hsugg, hna.1, hna.2]
        have hev : cmdEvents env c = [ExecEvent.single c] := by
          simp [cmdEvents, hret]
        have hstep : execCmdStep env st c =
            recordCmd env { st with events := st.events ++ [ExecEvent.single c] } c
              (env.exec c) := by
          unfold execCmdStep
          rw [if_pos hfail, hsugg]
          simp only [hna.1, hna.2, Bool.false_eq_true, if_false]
        rw [hstep, recordCmd_eq]
        simp [hret, hev, cmdHist, mkCtxC, hwr]
    | none =>
      have hret : cmdRetried env c = false := by simp [cmdRetried, hsugg]
      have hwr : cmdWrite env c = (c, env.exec c) := by
        simp [cmdWrite, hfail, hsugg]
      have hev : cmdEvents env c = [ExecEvent.single c] := by simp [cmdEvents, hret]
      have hstep : execCmdStep env st c =
          recordCmd env { st with events := st.events ++ [ExecEvent.single c] } c
            (env.exec c) := by
        unfold execCmdStep
        rw [if_pos hfail, hsugg]
      rw [hstep, recordCmd_eq]
      simp [hret, hev, cmdHist, mkCtxC, hwr]
  · have hret : cmdRetried env c = false := by simp [cmdRetried, hfail]
    have hwr : cmdWrite env c = (c, env.exec c) := by
      simp [cmdWrite, hfail]
    have hev : cmdEvents env c = [ExecEvent.single c] := by simp [cmdEvents, hret]
    have hstep : execCmdStep env st c =
        recordCmd env { st with events := st.events ++ [ExecEvent.single c] } c
          (env.exec c) := by
      unfold execCmdStep
      rw [if_neg hfail]
    rw [hstep, recordCmd_eq]
    simp [hret, hev, cmdHist, mkCtxC, hwr]

theorem recordIndiv_eq_recordCmd (env : Env) (st : RunState) (bcs : List String)
    (out : String) :
    recordIndiv env st bcs (bcs.headD "") out = recordCmd env st (bcs.headD "") out := by
  unfold recordIndiv recordCmd
  simp only [lookupD_dictInsert_self]

theorem execBlockStep_indiv (env : Env) (st : RunState) (name : String) (bcs : List String)
    (hind : pyStartsWith name "individual_" = true) :
    execBlockStep env st (name, bcs) = execCmdStep env st (bcs.headD "") := by
  unfold execBlockStep execCmdStep
  simp only [hind, if_true]
  by_cases hfail : is_command_failure (env.exec (bcs.headD "")) = true
  · rw [if_pos hfail, if_pos hfail]
    cases hsugg : suggest_command_correction (bcs.headD "") (env.exec (bcs.headD "")) with
    | some s =>
      simp only []
      by_cases hsr : env.show_raw = true
      · rw [if_pos hsr, if_pos hsr]
      · rw [if_neg hsr, if_neg hsr]
        by_cases hcf : env.confirm s = true
        · rw [if_pos hcf, if_pos hcf]
        · rw [if_neg hcf, if_neg hcf]
          exact recordIndiv_eq_recordCmd env _ bcs _
    | none =>
      simp only []
      exact recordIndiv_eq_recordCmd env _ bcs _
  · rw [if_neg hfail, if_neg hfail]
    exact recordIndiv_eq_recordCmd env _ bcs _

theorem execBlockStep_characterization (env : Env) (st : RunState)
    (blk : String × List String) :
    execBlockStep env st blk =
      { results := dictInsert st.results (blockWrite env blk).1 (blockWrite env blk).2,
        history := if blockRetried env blk then st.history
          else st.history ++ [blockHist env blk],
        ctx := if blockRetried env blk then st.ctx else mkCtx env st.ctx blk,
        events := st.events ++ blockEvents env blk } := by
  obtain ⟨name, bcs⟩ := blk
  by_cases hind : pyStartsWith name "individual_" = true
  · rw [execBlockStep_indiv env st name bcs hind, execCmdStep_characterization]
    have hw : blockWrite env (name, bcs) = cmdWrite env (bcs.headD "") := by
      simp [blockWrite, hind]
    have hr : blockRetried env (name, bcs) = cmdRetried env (bcs.headD "") := by
      simp [blockRetried, hind]
    have hh : blockHist env (name, bcs) = cmdHist env (bcs.headD "") := by
      simp [blockHist, cmdHist, hw]
    have hm : mkCtx env st.ctx (name, bcs) = mkCtxC env st.ctx (bcs.headD "") := by
      simp [mkCtx, mkCtxC, hw]
    have hev : blockEvents env (name, bcs) = cmdEvents env (bcs.headD "") := by
      simp [blockEvents, cmdEvents, hind]
    rw [hw, hr, hh, hm, hev]
  · have hind' : pyStartsWith name "individual_" = false := Bool.eq_false_iff.mpr hind
    have hr : blockRetried env (name, bcs) = false := by simp [blockRetried, hind']
    have hw : blockWrite env (name, bcs) =
        ("Interface Config: " ++ name, env.execBlock bcs) := by
      simp [blockWrite, hind']
    unfold execBlockStep
    simp only [hind', Bool.false_eq_true, if_false]
    rw [hr, hw]
    simp [blockHist, mkCtx, blockEvents, histAppend, hind', hw,
      lookupD_dictInsert_self]

theorem foldl_step_characterization {α : Type} (step : RunState → α → RunState)
    (w : α → String × String) (r : α → Bool) (h : α → HistoryEntry)
    (m : Context → α → Context) (ev : α → List ExecEvent)
    (hstep : ∀ st u, step st u =
      { results := dictInsert st.results (w u).1 (w u).2,
        history := if r u then st.history else st.history ++ [h u],
        ctx := if r u then st.ctx else m st.ctx u,
        events := st.events ++ ev u }) :
    ∀ (l : List α) (st : RunState),
      l.foldl step st =
        { results := l.foldl (fun d u => dictInsert d (w u).1 (w u).2) st.results,
          history := st.history ++ (l.filter (fun u => !r u)).map h,
          ctx := (l.filter (fun u => !r u)).foldl m st.ctx,
          events := st.events ++ (l.map ev).flatten } := by
  intro l
  induction l with
  | nil => intro st; simp
  | cons u rest ih =>
    intro st
    rw [List.foldl_cons, hstep, ih]
    by_cases hr : r u = true
    · simp [hr, List.filter_cons]
    · simp [hr, List.filter_cons]

theorem run_characterization (env : Env) (commands : List String)
    (history₀ : List HistoryEntry) (ctx₀ : Context)
    (hconn : env.connectOk = true) :
    (execute_commands_on_switch env commands history₀ ctx₀).results =
      (runWrites env commands).foldl (fun d p => dictInsert d p.1 p.2) [] ∧
    (runWrites env commands).length = runUnits env commands ∧
    (execute_commands_on_switch env commands history₀ ctx₀).history =
      history₀ ++ runHists env commands ∧
    (execute_commands_on_switch env commands history₀ ctx₀).ctx =
      runCtx env commands ctx₀ := by
  have hrun : execute_commands_on_switch env commands history₀ ctx₀ =
      if group_interface_commands commands ≠ [] then
        (group_interface_commands commands).foldl (execBlockStep env)
          ⟨[], history₀, ctx₀, []⟩
      else commands.foldl (execCmdStep env) ⟨[], history₀, ctx₀, []⟩ := by
    simp only [execute_commands_on_switch, hconn, if_true]
  by_cases hb : group_interface_commands commands = []
  · have hrun2 : execute_commands_on_switch env commands history₀ ctx₀ =
        commands.foldl (execCmdStep env) ⟨[], history₀, ctx₀, []⟩ := by
      rw [hrun, if_neg (fun hc => hc hb)]
    have hW : runWrites env commands = commands.map (cmdWrite env) := by
      simp only [runWrites]
      rw [if_pos hb]
    have hH : runHists env commands =
        (commands.filter (fun c => !cmdRetried env c)).map (cmdHist env) := by
      simp only [runHists]
      rw [if_pos hb]
    have hU : runUnits env commands = commands.length := by
      simp only [runUnits]
      rw [if_pos hb]
    have hC : runCtx env commands ctx₀ =
        (commands.filter (fun c => !cmdRetried env c)).foldl (mkCtxC env) ctx₀ := by
      simp only [runCtx]
      rw [if_pos hb]
    rw [hrun2, hW, hH, hU, hC,
      foldl_step_characterization (execCmdStep env) (cmdWrite env) (cmdRetried env)
        (cmdHist env) (mkCtxC env) (cmdEvents env)
        (fun st u => execCmdStep_characterization env st u) commands ⟨[], history₀, ctx₀, []⟩]
    refine ⟨?_, by simp, rfl, rfl⟩
    rw [List.foldl_map]
  · have hrun2 : execute_commands_on_switch env commands history₀ ctx₀ =
        (group_interface_commands commands).foldl (execBlockStep env)
          ⟨[], history₀, ctx₀, []⟩ := by
      rw [hrun, if_pos hb]
    have hW : runWrites env commands =
        (group_interface_commands commands).map (blockWrite env) := by
      simp only [runWrites]
      rw [if_neg hb]
    have hH : runHists env commands =
        ((group_interface_commands commands).filter
          (fun b => !blockRetried env b)).map (blockHist env) := by
      simp only [runHists]
      rw [if_neg hb]
    have hU : runUnits env commands = (group_interface_commands commands).length := by
      simp only [runUnits]
      rw [if_neg hb]
    have hC : runCtx env commands ctx₀ =
        ((group_interface_commands commands).filter
          (fun b => !blockRetried env b)).foldl (mkCtx env) ctx₀ := by
      simp only [runCtx]
      rw [if_neg hb]
    rw [hrun2, hW, hH, hU, hC,
      foldl_step_characterization (execBlockStep env) (blockWrite env) (blockRetried env)
        (blockHist env) (mkCtx env) (blockEvents env)
        (fun st u => execBlockStep_characterization env st u)
        (group_interface_commands commands) ⟨[], history₀, ctx₀, []⟩]
    refine ⟨?_, by simp, rfl, rfl⟩
    rw [List.foldl_map]

/-- Claim C2: an executed command CAN leave history and context untouched: a
failing `show bgp` retried automatically in `show_raw` mode executes two
transport commands, yet appends no history record and leaves the context
unchanged (the `continue` of the retry path skips both updates). -/
theorem orchestrator_records_counterexample :
    (execute_commands_on_switch
        ⟨true, fun _ => "% Invalid command", fun _ => "", true, fun _ => true, "sw1", 0⟩
        ["show bgp"] [] ⟨none, none, []⟩).events.length = 2 ∧
    (execute_commands_on_switch
        ⟨true, fun _ => "% Invalid command", fun _ => "", true, fun _ => true, "sw1", 0⟩
        ["show bgp"] [] ⟨none, none, []⟩).history = [] ∧
    (execute_commands_on_switch
        ⟨true, fun _ => "% Invalid command", fun _ => "", true, fun _ => true, "sw1", 0⟩
        ["show bgp"] [] ⟨none, none, []⟩).ctx = ⟨none, none, []⟩ := by
  refine ⟨?_, ?_, ?_⟩ <;> decide

/-- Claim C2 (amended): when the connection succeeds, every executed unit
(block in the grouped branch, command in the ungrouped branch) contributes
exactly one `results` write — under the corrected key when the retry path is
taken — the run's final `results` being the in-order dict insertion of those
writes; but a history record is appended and the context is updated only for
the units that do NOT take the retry path, not for every unit. -/
theorem orchestrator_records_amended (env : Env) (commands : List String)
    (history₀ : List HistoryEntry) (ctx₀ : Context)
    (hconn : env.connectOk = true) :
    (execute_commands_on_switch env commands history₀ ctx₀).results =
      (runWrites env commands).foldl (fun d p => dictInsert d p.1 p.2) [] ∧
    (runWrites env commands).length = runUnits env commands ∧
    (execute_commands_on_switch env commands history₀ ctx₀).history =
      history₀ ++ runHists env commands ∧
    (execute_commands_on_switch env commands history₀ ctx₀).ctx =
      runCtx env commands ctx₀ :=
  run_characterization env commands history₀ ctx₀ hconn

/-- Witness for the amended claim C2. -/
theorem orchestrator_records_amended_witness :
    (Env.mk true (fun _ => "ok") (fun _ => "blockout") false (fun _ => false)
        "sw1" 7).connectOk = true ∧
    ((execute_commands_on_switch
        (Env.mk true (fun _ => "ok") (fun _ => "blockout") false (fun _ => false) "sw1" 7)
        ["show version", "interface ethernet1/1", "no shutdown"] [] ⟨none, none, []⟩).results =
      (runWrites
        (Env.mk true (fun _ => "ok") (fun _ => "blockout") false (fun _ => false) "sw1" 7)
        ["show version", "interface ethernet1/1", "no shutdown"]).foldl
          (fun d p => dictInsert d p.1 p.2) [] ∧
    (runWrites
        (Env.mk true (fun _ => "ok") (fun _ => "blockout") false (fun _ => false) "sw1" 7)
        ["show version", "interface ethernet1/1", "no shutdown"]).length =
      runUnits
        (Env.mk true (fun _ => "ok") (fun _ => "blockout") false (fun _ => false) "sw1" 7)
        ["show version", "interface ethernet1/1", "no shutdown"] ∧
    (execute_commands_on_switch
        (Env.mk true (fun _ => "ok") (fun _ => "blockout") false (fun _ => false) "sw1" 7)
        ["show version", "interface ethernet1/1", "no shutdown"] [] ⟨none, none, []⟩).history =
      [] ++ runHists
        (Env.mk true (fun _ => "ok") (fun _ => "blockout") false (fun _ => false) "sw1" 7)
        ["show version", "interface ethernet1/1", "no shutdown"] ∧
    (execute_commands_on_switch
        (Env.mk true (fun _ => "ok") (fun _ => "blockout") false (fun _ => false) "sw1" 7)
        ["show version", "interface ethernet1/1", "no shutdown"] [] ⟨none, none, []⟩).ctx =
      runCtx
        (Env.mk true (fun _ => "ok") (fun _ => "blockout") false (fun _ => false) "sw1" 7)
        ["show version", "interface ethernet1/1", "no shutdown"] ⟨none, none, []⟩) :=
  ⟨by decide,
    orchestrator_records_amended
      (Env.mk true (fun _ => "ok") (fun _ => "blockout") false (fun _ => false) "sw1" 7)
      ["show version", "interface ethernet1/1", "no shutdown"] [] ⟨none, none, []⟩
      (by decide)⟩

theorem truncate500_spec (s : String) :
    (500 < s.length → truncate500 s = pyTake s 500 ++ "...") ∧
    (s.length ≤ 500 → truncate500 s = s) := by
  constructor
  · intro h
    unfold truncate500
    rw [if_pos h]
  · intro h
    unfold truncate500
    rw [if_neg (by omega)]

theorem forall2_of_maps {α β γ : Type} (R : β → γ → Prop) (f : α → β) (g : α → γ)
    (l : List α) (h : ∀ a, R (f a) (g a)) : List.Forall₂ R (l.map f) (l.map g) := by
  induction l with
  | nil => exact List.Forall₂.nil
  | cons a rest ih => exact List.Forall₂.cons (h a) ih

/-- Claim C10: when the connection succeeds, every appended history record
stores the first 500 characters of the recorded output followed by "..."
when that output is longer than 500 characters, and stores it verbatim when
it is 500 characters or shorter — `runRaws` lists, in order, the full
recorded output behind each appended record. -/
theorem history_truncation (env : Env) (commands : List String)
    (history₀ : List HistoryEntry) (ctx₀ : Context)
    (hconn : env.connectOk = true) :
    List.Forall₂ (fun (e : HistoryEntry) (raw : String) =>
        (500 < raw.length → e.output = pyTake raw 500 ++ "...") ∧
        (raw.length ≤ 500 → e.output = raw))
      ((execute_commands_on_switch env commands history₀ ctx₀).history.drop
        history₀.length)
      (runRaws env commands) := by
  have h := (run_characterization env commands history₀ ctx₀ hconn).2.2.1
  have hd : (execute_commands_on_switch env commands history₀ ctx₀).history.drop
      history₀.length = runHists env commands := by
    rw [h, List.drop_left]
  rw [hd]
  by_cases hb : group_interface_commands commands = []
  · have hH : runHists env commands =
        (commands.filter (fun c => !cmdRetried env c)).map (cmdHist env) := by
      simp only [runHists]
      rw [if_pos hb]
    have hR : runRaws env commands =
        (commands.filter (fun c => !cmdRetried env c)).map
          (fun c => (cmdWrite env c).2) := by
      simp only [runRaws]
      rw [if_pos hb]
    rw [hH, hR]
    exact forall2_of_maps _ _ _ _ (fun c => truncate500_spec ((cmdWrite env c).2))
  · have hH : runHists env commands =
        ((group_interface_commands commands).filter
          (fun b => !blockRetried env b)).map (blockHist env) := by
      simp only [runHists]
      rw [if_neg hb]
    have hR : runRaws env commands =
        ((group_interface_commands commands).filter
          (fun b => !blockRetried env b)).map (fun b => (blockWrite env b).2) := by
      simp only [runRaws]
      rw [if_neg hb]
    rw [hH, hR]
    exact forall2_of_maps _ _ _ _ (fun b => truncate500_spec ((blockWrite env b).2))

/-- Witness for claim C10. -/
theorem history_truncation_witness :
    (Env.mk true (fun _ => "ok") (fun _ => "x") false (fun _ => false)
        "sw1" 3).connectOk = true ∧
    List.Forall₂ (fun (e : HistoryEntry) (raw : String) =>
        (500 < raw.length → e.output = pyTake raw 500 ++ "...") ∧
        (raw.length ≤ 500 → e.output = raw))
      ((execute_commands_on_switch
          (Env.mk true (fun _ => "ok") (fun _ => "x") false (fun _ => false) "sw1" 3)
          ["show version"] [] ⟨none, none, []⟩).history.drop
        ([] : List HistoryEntry).length)
      (runRaws
        (Env.mk true (fun _ => "ok") (fun _ => "x") false (fun _ => false) "sw1" 3)
        ["show version"]) :=
  ⟨by decide,
    history_truncation
      (Env.mk true (fun _ => "ok") (fun _ => "x") false (fun _ => false) "sw1" 3)
      ["show version"] [] ⟨none, none, []⟩ (by decide)⟩

end NexusCLI
